import Mathlib

/-!
Shallow embedding of the cldmemory memory engine (src/services/memory.ts,
src/services/qdrant.ts, src/services/chunking.ts).

Conventions of the embedding:
* The vector store (Qdrant collection) is a `Store := List Memory` in scroll
  order; point id equals the payload id.  Lookup is first-match, scroll is
  list order, `setPayload` rewrites the entries whose id matches.
* JavaScript `Date` values are modelled as `Nat` ticks.  All `new Date()`
  calls inside one engine operation are given the same tick `Env.now`; the
  claims under study only observe that the field was refreshed.
* External collaborators (OpenAI embeddings / keywords / emotion / summaries
  and the vector search of the Qdrant client) are oracles carried in `Env`.
  `Env.clientSearch` returns the ids of the ranked points whose score already
  passed the floor, since scoring happens outside this repository.
* `uuidv4()` is external randomness: creation takes the fresh id as an
  explicit argument.
* Fallible operations return `Res α`, which keeps the store reached at the
  moment a JavaScript exception is thrown (mutations made before the throw
  persist, exactly as in the real system).
* Numbers that the code treats as reals (importance, valence, similarity)
  are `ℚ`; counters and clock ticks are `Nat`.
-/

/-- Memory types, from src/types/memory.ts `MemoryType`. -/
inductive MemoryType where
  | episodic
  | semantic
  | procedural
  | emotional
  | sensory
  | working
deriving DecidableEq, Repr

/-- String value of a `MemoryType`, as in the TypeScript enum. -/
def MemoryType.str : MemoryType → String
  | .episodic => "episodic"
  | .semantic => "semantic"
  | .procedural => "procedural"
  | .emotional => "emotional"
  | .sensory => "sensory"
  | .working => "working"

/-- `MemoryContext` from src/types/memory.ts: every field optional. -/
structure MemoryContext where
  location : Option String := none
  people : Option (List String) := none
  mood : Option String := none
  activity : Option String := none
  tags : Option (List String) := none
  source : Option String := none
  isParentChunk : Option Bool := none
  chunkIndex : Option Nat := none
  chunkOf : Option String := none
  totalChunks : Option Nat := none
  semanticDensity : Option ℚ := none
deriving DecidableEq, Repr

/-- The `metadata` bag is open (`Record<string, any>`); the engine code under
study only ever writes the keys `reconstructed` and `chunkCount`
(src/services/memory.ts lines 166-170), so the model carries exactly those. -/
structure MemoryMeta where
  reconstructed : Bool := false
  chunkCount : Option Nat := none
deriving DecidableEq, Repr

/-- A memory record, from src/types/memory.ts `Memory`. -/
structure Memory where
  id : String
  content : String
  type : MemoryType
  timestamp : Nat
  importance : ℚ
  emotionalValence : ℚ
  associations : List String
  context : MemoryContext := {}
  metadata : MemoryMeta := {}
  lastAccessed : Nat
  accessCount : Nat
  decay : ℚ := 0
deriving DecidableEq, Repr

/-- The collection, in scroll order. -/
abbrev Store := List Memory

/-- Result of a stateful engine operation: either a value or a thrown
`Error` message, in both cases together with the store state reached. -/
inductive Res (α : Type) where
  | ok (a : α) (s : Store)
  | err (e : String) (s : Store)
deriving Repr, DecidableEq

/-- `Partial<Memory>` as passed to payload patches and `updateMemory`.
The operations under study never patch `id` or `timestamp`, so the model
omits them. -/
structure MemoryPatch where
  content : Option String := none
  importance : Option ℚ := none
  associations : Option (List String) := none
  lastAccessed : Option Nat := none
  accessCount : Option Nat := none
  context : Option MemoryContext := none
  metadata : Option MemoryMeta := none
deriving DecidableEq, Repr

/-- JavaScript object spread `{...memory, ...updates}` for a partial patch. -/
def applyPatch (m : Memory) (p : MemoryPatch) : Memory :=
  { m with
    content := p.content.getD m.content
    importance := p.importance.getD m.importance
    associations := p.associations.getD m.associations
    lastAccessed := p.lastAccessed.getD m.lastAccessed
    accessCount := p.accessCount.getD m.accessCount
    context := p.context.getD m.context
    metadata := p.metadata.getD m.metadata }

/-- `detailLevel` of a search. -/
inductive DetailLevel where
  | compact
  | full
deriving DecidableEq, Repr

/-- Emotional valence range filter. -/
structure EmotionalRange where
  min : ℚ
  max : ℚ
deriving DecidableEq, Repr

/-- Timestamp range filter (field `end` renamed: reserved word). -/
structure DateRange where
  startDate : Nat
  endDate : Nat
deriving DecidableEq, Repr

/-- `MemorySearchParams` from src/types/memory.ts. -/
structure MemorySearchParams where
  query : String
  type : Option MemoryType := none
  minImportance : Option ℚ := none
  emotionalRange : Option EmotionalRange := none
  dateRange : Option DateRange := none
  limit : Option Nat := none
  includeAssociations : Bool := false
  detailLevel : Option DetailLevel := none
  similarityThreshold : Option ℚ := none
deriving DecidableEq, Repr

/-- `CompactMemory` from src/types/memory.ts. -/
structure CompactMemory where
  id : String
  content : String
  type : MemoryType
  timestamp : Nat
  importance : ℚ
  emotionalValence : ℚ
  tags : Option (List String)
deriving DecidableEq, Repr

/-- The metadata filter conjunction built by `searchMemories`
(src/services/memory.ts lines 189-216): one optional clause per field. -/
structure SearchFilter where
  type : Option MemoryType := none
  minImportance : Option ℚ := none
  emotionalRange : Option EmotionalRange := none
  dateRange : Option DateRange := none
deriving DecidableEq, Repr

/-- Number of `must` clauses of the filter. -/
def SearchFilter.mustCount (f : SearchFilter) : Nat :=
  (if f.type.isSome then 1 else 0) + (if f.minImportance.isSome then 1 else 0) +
  (if f.emotionalRange.isSome then 1 else 0) + (if f.dateRange.isSome then 1 else 0)

/-- Predicate semantics of the filter conjunction, as evaluated by the
vector store (`gte`/`lte` ranges, exact match on `type`). -/
def SearchFilter.matches (f : SearchFilter) (m : Memory) : Bool :=
  (match f.type with | some t => m.type = t | none => true) &&
  (match f.minImportance with | some q => decide (q ≤ m.importance) | none => true) &&
  (match f.emotionalRange with
    | some r => decide (r.min ≤ m.emotionalValence) && decide (m.emotionalValence ≤ r.max)
    | none => true) &&
  (match f.dateRange with
    | some r => decide (r.startDate ≤ m.timestamp) && decide (m.timestamp ≤ r.endDate)
    | none => true)

/-- External collaborators and ambient inputs of one engine operation. -/
structure Env where
  /-- `new Date()` during this operation. -/
  now : Nat
  /-- OpenAI emotional valence of a text. -/
  analyzeEmotion : String → ℚ
  /-- OpenAI keyword extraction. -/
  extractKeywords : String → List String
  /-- OpenAI embedding of a text. -/
  createEmbedding : String → List ℚ
  /-- OpenAI batched embeddings (semantic chunker). -/
  createEmbeddings : List String → List (List ℚ)
  /-- OpenAI multi-text summarizer. -/
  summarizeTexts : List String → String
  /-- Qdrant ranked vector search: ids of the points whose cosine score
  passed the floor, best first.  Scoring happens outside the repository. -/
  clientSearch : List ℚ → Nat → Option SearchFilter → ℚ → List String
  /-- `config.SIMILARITY_THRESHOLD ?? DEFAULT_SIMILARITY_THRESHOLD`. -/
  configSimilarityThreshold : ℚ := 7/10
  /-- Floating-point cosine similarity of the chunker
  (`Math.sqrt` is not rational; the value only feeds threshold tests). -/
  cosineSim : List ℚ → List ℚ → ℚ

/-- JavaScript `a || d` for an optional numeric option (`0` is falsy). -/
def jsOrNat (o : Option Nat) (d : Nat) : Nat :=
  match o with
  | some n => if n = 0 then d else n
  | none => d

/-- `String.prototype.trim()`, written over the character list so that the
kernel can evaluate it on concrete inputs (extensionally the usual trim). -/
def jsTrim (s : String) : String :=
  ((s.data.dropWhile Char.isWhitespace).reverse.dropWhile Char.isWhitespace).reverse.asString

/-- `String.prototype.substring(0, n)` over the character list. -/
def jsTake (s : String) (n : Nat) : String :=
  (s.data.take n).asString

namespace QdrantService

/-- `retrieve` by id (src/services/qdrant.ts lines 89-105): first point whose
id matches, or null. -/
def getMemory (s : Store) (id : String) : Option Memory :=
  s.find? (fun m => m.id = id)

/-- `setPayload` on a point id: rewrite the payload stored at that id. -/
def setPayload (s : Store) (id : String) (v : Memory) : Store :=
  s.map (fun m => if m.id = id then v else m)

/-- `upsert` of a point (src/services/qdrant.ts lines 38-52): replace the
point with this id, or append a new point. -/
def upsertMemory (s : Store) (v : Memory) : Store :=
  if s.any (fun m => m.id = v.id) then setPayload s v.id v else s ++ [v]

/-- `delete` of one point (src/services/qdrant.ts lines 107-111). -/
def deleteMemory (s : Store) (id : String) : Store :=
  s.filter (fun m => m.id ≠ id)

/-- `updateMemoryMetadata` (src/services/qdrant.ts lines 128-150): re-read
the record, merge the updates, then unconditionally stamp `lastAccessed` with
the current time and `accessCount` with the re-read count plus one. -/
def updateMemoryMetadata (env : Env) (s : Store) (id : String) (updates : MemoryPatch) :
    Res Unit :=
  match getMemory s id with
  | none => .err ("Memory " ++ id ++ " not found") s
  | some memory =>
      let updatedMemory :=
        { applyPatch memory updates with
          lastAccessed := env.now
          accessCount := memory.accessCount + 1 }
      .ok () (setPayload s id updatedMemory)

/-- `scroll` with a `context.chunkOf` match clause and `limit: 100`
(src/services/qdrant.ts lines 152-181).  The engine only ever calls
`searchByMetadata` with the single key `chunkOf`. -/
def searchByMetadata (s : Store) (chunkOf : String) : List Memory :=
  (s.filter (fun m => m.context.chunkOf = some chunkOf)).take 100

/-- `scroll` with a filter (src/services/qdrant.ts lines 183-200). -/
def searchByFilters (s : Store) (f : SearchFilter) (limit : Nat) : List Memory :=
  (s.filter f.matches).take limit

/-- `search` by vector (src/services/qdrant.ts lines 54-87): ask the client
for `min(limit*3, 100)` candidates above the score floor, then truncate to
`limit`.  The client-side re-check of the score is inside the oracle, which
only returns ids that passed the floor. -/
def searchSimilar (env : Env) (s : Store) (embedding : List ℚ) (limit : Nat)
    (filter : Option SearchFilter) (threshold : Option ℚ) : List Memory :=
  let similarityThreshold := threshold.getD env.configSimilarityThreshold
  let searchLimit := min (limit * 3) 100
  ((env.clientSearch embedding searchLimit filter similarityThreshold).filterMap
    (getMemory s)).take limit

end QdrantService

namespace MemoryService

/-- Importance heuristic (src/services/memory.ts lines 608-623). -/
def calculateImportance (content : String) (ty : MemoryType) : ℚ :=
  let importance : ℚ := 1/2
  let importance := if ty = .episodic then importance + 1/5 else importance
  let importance := if ty = .emotional then importance + 3/20 else importance
  let importance := if content.length > 200 then importance + 1/10 else importance
  min 1 importance

/-- Truthiness-filtered `Object.entries` of a context, in interface field
order, values rendered as in the template literal (arrays joined with a
comma; note JavaScript treats an empty array as truthy, `0`, `""` and
`false` as falsy).  Numeric rendering uses the `ℚ` printer: the string only
feeds the embedding oracle. -/
def contextEntries (c : MemoryContext) : List (String × String) :=
  (match c.location with | some v => if v = "" then [] else [("location", v)] | none => []) ++
  (match c.people with | some l => [("people", String.intercalate ", " l)] | none => []) ++
  (match c.mood with | some v => if v = "" then [] else [("mood", v)] | none => []) ++
  (match c.activity with | some v => if v = "" then [] else [("activity", v)] | none => []) ++
  (match c.tags with | some l => [("tags", String.intercalate ", " l)] | none => []) ++
  (match c.source with | some v => if v = "" then [] else [("source", v)] | none => []) ++
  (match c.isParentChunk with | some b => if b then [("isParentChunk", "true")] else [] | none => []) ++
  (match c.chunkIndex with | some n => if n = 0 then [] else [("chunkIndex", toString n)] | none => []) ++
  (match c.chunkOf with | some v => if v = "" then [] else [("chunkOf", v)] | none => []) ++
  (match c.totalChunks with | some n => if n = 0 then [] else [("totalChunks", toString n)] | none => []) ++
  (match c.semanticDensity with | some q => if q = 0 then [] else [("semanticDensity", toString q)] | none => [])

/-- Canonical embedding text (src/services/memory.ts lines 599-606). -/
def prepareMemoryForEmbedding (m : Memory) : String :=
  let ctxStr := String.intercalate "; "
    ((contextEntries m.context).map (fun kv => kv.1 ++ ": " ++ kv.2))
  m.content ++ "\n\nType: " ++ m.type.str ++ "\nContext: " ++ ctxStr

/-- Validation of an optional importance value: `importance !== undefined &&
(importance < 0 || importance > 1)`. -/
def importanceOutOfRange (o : Option ℚ) : Bool :=
  match o with
  | some q => decide (q < 0) || decide (q > 1)
  | none => false

/-- Spread `{ tags: extracted, ...context }`: fields present in `ctx` win. -/
def mergeContext (base ctx : MemoryContext) : MemoryContext :=
  { location := ctx.location <|> base.location
    people := ctx.people <|> base.people
    mood := ctx.mood <|> base.mood
    activity := ctx.activity <|> base.activity
    tags := ctx.tags <|> base.tags
    source := ctx.source <|> base.source
    isParentChunk := ctx.isParentChunk <|> base.isParentChunk
    chunkIndex := ctx.chunkIndex <|> base.chunkIndex
    chunkOf := ctx.chunkOf <|> base.chunkOf
    totalChunks := ctx.totalChunks <|> base.totalChunks
    semanticDensity := ctx.semanticDensity <|> base.semanticDensity }

/-- The reverse-edge loop of association discovery
(src/services/memory.ts lines 642-651): cap 5 on auto-derived links. -/
def addReverseEdges (env : Env) (memId : String) :
    List String → Store → Res Unit
  | [], s => .ok () s
  | assocId :: rest, s =>
      match QdrantService.getMemory s assocId with
      | none => addReverseEdges env memId rest s
      | some assocMemory =>
          if memId ∈ assocMemory.associations then
            addReverseEdges env memId rest s
          else
            match QdrantService.updateMemoryMetadata env s assocId
                { associations := some ((assocMemory.associations ++ [memId]).take 5) } with
            | .err e s1 => .err e s1
            | .ok _ s1 => addReverseEdges env memId rest s1

/-- Association discovery for a fresh record
(src/services/memory.ts lines 625-652). -/
def updateAssociations (env : Env) (memory : Memory) (s : Store) : Res Unit :=
  let embedding := env.createEmbedding (prepareMemoryForEmbedding memory)
  let similar := QdrantService.searchSimilar env s embedding 5 none none
  let associations := ((similar.filter (fun m => m.id ≠ memory.id)).take 3).map (·.id)
  if associations.length > 0 then
    match QdrantService.updateMemoryMetadata env s memory.id
        { associations := some associations } with
    | .err e s1 => .err e s1
    | .ok _ s1 => addReverseEdges env memory.id associations s1
  else .ok () s

/-- `createMemory` (src/services/memory.ts lines 94-135).  `newId` stands
for the external `uuidv4()`. -/
def createMemory (env : Env) (newId : String) (content : String) (ty : MemoryType)
    (ctx : Option MemoryContext) (importance : Option ℚ) (s : Store) : Res Memory :=
  if jsTrim content = "" then .err "Memory content cannot be empty" s
  else if importanceOutOfRange importance then .err "Importance must be between 0 and 1" s
  else
    let memory : Memory :=
      { id := newId
        content := content
        type := ty
        timestamp := env.now
        importance := importance.getD (calculateImportance content ty)
        emotionalValence := env.analyzeEmotion content
        associations := []
        context := mergeContext { tags := some (env.extractKeywords content) } (ctx.getD {})
        metadata := {}
        lastAccessed := env.now
        accessCount := 0
        decay := 0 }
    let s1 := QdrantService.upsertMemory s memory
    match updateAssociations env memory s1 with
    | .err e s2 => .err e s2
    | .ok _ s2 => .ok memory s2

/-- Service-level `getMemory` (src/services/memory.ts lines 289-298):
retrieval bumps `lastAccessed`/`accessCount` through the metadata patch. -/
def getMemory (env : Env) (id : String) (s : Store) : Res (Option Memory) :=
  match QdrantService.getMemory s id with
  | none => .ok none s
  | some memory =>
      match QdrantService.updateMemoryMetadata env s id
          { lastAccessed := some env.now, accessCount := some (memory.accessCount + 1) } with
      | .err e s1 => .err e s1
      | .ok _ s1 => .ok (some memory) s1

/-- `updateMemory` (src/services/memory.ts lines 300-325). -/
def updateMemory (env : Env) (id : String) (updates : MemoryPatch) (s : Store) :
    Res (Option Memory) :=
  match QdrantService.getMemory s id with
  | none => .ok none s
  | some memory =>
      match updates.content with
      | some c =>
          if jsTrim c = "" then .err "Memory content cannot be empty" s
          else if importanceOutOfRange updates.importance then
            .err "Importance must be between 0 and 1" s
          else
            let updatedMemory := applyPatch memory updates
            let s1 := QdrantService.upsertMemory s updatedMemory
            .ok (some updatedMemory) s1
      | none =>
          if importanceOutOfRange updates.importance then
            .err "Importance must be between 0 and 1" s
          else
            let updatedMemory := applyPatch memory updates
            match QdrantService.updateMemoryMetadata env s id updates with
            | .err e s1 => .err e s1
            | .ok _ s1 => .ok (some updatedMemory) s1

/-- Service-level delete (src/services/memory.ts lines 327-329). -/
def deleteMemory (s : Store) (id : String) : Store :=
  QdrantService.deleteMemory s id

/-- `connectMemories` (src/services/memory.ts lines 442-467): both reads go
through the bumping `getMemory`; insert is append then `slice(0, 10)`. -/
def connectMemories (env : Env) (sourceId targetId : String) (bidirectional : Bool)
    (s : Store) : Res Unit :=
  match getMemory env sourceId s with
  | .err e s1 => .err e s1
  | .ok sourceOpt s1 =>
      match getMemory env targetId s1 with
      | .err e s2 => .err e s2
      | .ok targetOpt s2 =>
          match sourceOpt, targetOpt with
          | some source, some target =>
              let step1 : Res Unit :=
                if targetId ∈ source.associations then .ok () s2
                else
                  QdrantService.updateMemoryMetadata env s2 sourceId
                    { associations := some ((source.associations ++ [targetId]).take 10) }
              match step1 with
              | .err e s3 => .err e s3
              | .ok _ s3 =>
                  if bidirectional && !(source.id ∈ target.associations) then
                    QdrantService.updateMemoryMetadata env s3 targetId
                      { associations := some ((target.associations ++ [sourceId]).take 10) }
                  else .ok () s3
          | _, _ => .err "One or both memories not found" s2

/-- `removeAssociation` (src/services/memory.ts lines 469-489). -/
def removeAssociation (env : Env) (sourceId targetId : String) (bidirectional : Bool)
    (s : Store) : Res Unit :=
  match getMemory env sourceId s with
  | .err e s1 => .err e s1
  | .ok sourceOpt s1 =>
      let step1 : Res Unit :=
        match sourceOpt with
        | some source =>
            if targetId ∈ source.associations then
              QdrantService.updateMemoryMetadata env s1 sourceId
                { associations := some (source.associations.filter (fun i => i ≠ targetId)) }
            else .ok () s1
        | none => .ok () s1
      match step1 with
      | .err e s2 => .err e s2
      | .ok _ s2 =>
          if bidirectional then
            match getMemory env targetId s2 with
            | .err e s3 => .err e s3
            | .ok targetOpt s3 =>
                match targetOpt with
                | some target =>
                    if sourceId ∈ target.associations then
                      QdrantService.updateMemoryMetadata env s3 targetId
                        { associations := some (target.associations.filter (fun i => i ≠ sourceId)) }
                    else .ok () s3
                | none => .ok () s3
          else .ok () s2

/-- The access-pattern loop of `searchMemories`
(src/services/memory.ts lines 239-245), sequentially patching every hit. -/
def bumpAccess (env : Env) : List Memory → Store → Res Unit
  | [], s => .ok () s
  | m :: rest, s =>
      match QdrantService.updateMemoryMetadata env s m.id
          { lastAccessed := some env.now, accessCount := some (m.accessCount + 1) } with
      | .err e s1 => .err e s1
      | .ok _ s1 => bumpAccess env rest s1

/-- The filter conjunction built from the parameters
(src/services/memory.ts lines 189-216). -/
def buildFilter (p : MemorySearchParams) : SearchFilter :=
  { type := p.type
    minImportance := p.minImportance
    emotionalRange := p.emotionalRange
    dateRange := p.dateRange }

/-- The primary result list of `searchMemories`
(src/services/memory.ts lines 218-237), before access bumping: filter-only
scroll for an empty query, ranked vector search otherwise, empty when there
is neither query nor filter. -/
def searchPrimary (env : Env) (p : MemorySearchParams) (s : Store) : List Memory :=
  let filter := buildFilter p
  if jsTrim p.query = "" then
    if filter.mustCount > 0 then
      QdrantService.searchByFilters s filter (jsOrNat p.limit 10)
    else []
  else
    let queryEmbedding := env.createEmbedding p.query
    QdrantService.searchSimilar env s queryEmbedding (jsOrNat p.limit 10)
      (if filter.mustCount > 0 then some filter else none) p.similarityThreshold

/-- The `includeAssociations` pass (src/services/memory.ts lines 248-264):
associated ids not already present are fetched directly from the store
adapter (`this.qdrant.getMemory`) and appended flat. -/
def appendAssociated (s : Store) (memories : List Memory) : List Memory :=
  (memories.foldl
    (fun st m =>
      m.associations.foldl
        (fun (st : List Memory × List String) assocId =>
          if assocId ∈ st.2 then st
          else
            match QdrantService.getMemory s assocId with
            | some associated => (st.1 ++ [associated], st.2 ++ [assocId])
            | none => st)
        st)
    (memories, memories.map (·.id))).1

/-- Compact projection (src/services/memory.ts lines 275-287). -/
def toCompactMemories (memories : List Memory) : List CompactMemory :=
  memories.map (fun m =>
    { id := m.id
      content := if m.content.length > 200 then jsTake m.content 197 ++ "..." else m.content
      type := m.type
      timestamp := m.timestamp
      importance := m.importance
      emotionalValence := m.emotionalValence
      tags := m.context.tags })

end MemoryService

/-- Untagged union `Memory[] | CompactMemory[]` returned by search. -/
inductive SearchOut where
  | full (l : List Memory)
  | compact (l : List CompactMemory)
deriving DecidableEq, Repr

namespace MemoryService

/-- `searchMemories` (src/services/memory.ts lines 188-273).  Note the
order of the return paths: the `includeAssociations` list is returned
before the compact conversion is considered, and the list returned is the
pre-bump snapshot. -/
def searchMemories (env : Env) (p : MemorySearchParams) (s : Store) : Res SearchOut :=
  let memories := searchPrimary env p s
  match bumpAccess env memories s with
  | .err e s1 => .err e s1
  | .ok _ s1 =>
      if p.includeAssociations then
        .ok (.full (appendAssociated s1 memories)) s1
      else if p.detailLevel = some .compact then
        .ok (.compact (toCompactMemories memories)) s1
      else .ok (.full memories) s1

/-- Stable insertion of `x` after the already-placed elements that compare
`le` to it. -/
def insertByLe {α : Type} (le : α → α → Bool) (x : α) : List α → List α
  | [] => [x]
  | y :: ys => if le y x then y :: insertByLe le x ys else x :: y :: ys

/-- Stable sort, modelling `Array.prototype.sort` with a numeric comparator
(ECMAScript sort is stable; a stable sort for a total preorder is unique,
so any stable implementation has the same graph). -/
def stableSortBy {α : Type} (le : α → α → Bool) (l : List α) : List α :=
  l.foldl (fun acc x => insertByLe le x acc) []

/-- `chunks.sort((a, b) => (a.context.chunkIndex || 0) - (b.context.chunkIndex || 0))`
(src/services/memory.ts line 157). -/
def sortByChunkIndex (l : List Memory) : List Memory :=
  stableSortBy (fun a b => decide (a.context.chunkIndex.getD 0 ≤ b.context.chunkIndex.getD 0)) l

/-- JavaScript truthiness of an optional string (`undefined` and `""` are
falsy). -/
def truthyStr (o : Option String) : Bool :=
  match o with
  | some v => v ≠ ""
  | none => false

/-- The reconstruction loop of `searchChunkedMemories`
(src/services/memory.ts lines 144-183), with its `processedParents` set.
A parent is only marked processed when it has at least one chunk; plain
records pass through; chunk children are dropped. -/
def reconstructLoop (s : Store) : List Memory → List String → List Memory
  | [], _ => []
  | memory :: rest, processed =>
      if memory.context.isParentChunk = some true && !(memory.id ∈ processed) then
        let chunks := QdrantService.searchByMetadata s memory.id
        if chunks.length > 0 then
          let sortedChunks := sortByChunkIndex chunks
          let fullContent := String.intercalate "\n\n" (sortedChunks.map (·.content))
          let reconstructedMemory :=
            { memory with
              content := fullContent
              metadata :=
                { memory.metadata with
                  reconstructed := true
                  chunkCount := some chunks.length } }
          reconstructedMemory :: reconstructLoop s rest (memory.id :: processed)
        else memory :: reconstructLoop s rest processed
      else if !truthyStr memory.context.chunkOf then
        memory :: reconstructLoop s rest processed
      else reconstructLoop s rest processed

/-- `searchChunkedMemories` (src/services/memory.ts lines 137-186). -/
def searchChunkedMemories (env : Env) (p : MemorySearchParams)
    (reconstructChunks : Bool) (s : Store) : Res SearchOut :=
  match searchMemories env p s with
  | .err e s1 => .err e s1
  | .ok out s1 =>
      if !reconstructChunks || p.detailLevel = some .compact then .ok out s1
      else
        match out with
        | .compact l => .ok (.compact l) s1
        | .full memories => .ok (.full (reconstructLoop s1 memories [])) s1

/-- `Promise.all(memoryIds.map(id => this.getMemory(id)))` at the top of
consolidation (src/services/memory.ts line 379), modelled sequentially:
each found record is access-bumped, order of bumps is not observed by the
claims under study. -/
def getMemoryList (env : Env) : List String → Store → Res (List (Option Memory))
  | [], s => .ok [] s
  | id :: rest, s =>
      match getMemory env id s with
      | .err e s1 => .err e s1
      | .ok m s1 =>
          match getMemoryList env rest s1 with
          | .err e s2 => .err e s2
          | .ok ms s2 => .ok (m :: ms) s2

/-- The linking loop of consolidation (src/services/memory.ts lines
427-430): one-directional edges from the consolidated record to every id of
the original input list. -/
def connectAll (env : Env) (consolidatedId : String) :
    List String → Store → Res Unit
  | [], s => .ok () s
  | originalId :: rest, s =>
      match connectMemories env consolidatedId originalId false s with
      | .err e s1 => .err e s1
      | .ok _ s1 => connectAll env consolidatedId rest s1

/-- The deletion loop of consolidation (src/services/memory.ts lines
432-437). -/
def deleteOriginals : List String → Store → Store
  | [], s => s
  | id :: rest, s => deleteOriginals rest (deleteMemory s id)

end MemoryService

/-- Consolidation strategies (src/services/memory.ts line 376). -/
inductive ConsolidationStrategy where
  | merge_content
  | summarize
  | keep_most_important
  | create_composite
deriving DecidableEq, Repr

/-- `Math.max(...)` over a nonempty list (only applied with ≥ 2 inputs). -/
def listMaxQ : List ℚ → ℚ
  | [] => 0
  | x :: xs => xs.foldl max x

/-- `Array.from(new Set(...))`: deduplication keeping first occurrences. -/
def dedupFirst : List String → List String :=
  go []
where
  go (seen : List String) : List String → List String
    | [] => []
    | x :: xs => if x ∈ seen then go seen xs else x :: go (x :: seen) xs

/-- `validMemories.reduce((max, m) => m.importance > max.importance ? m : max)`
(src/services/memory.ts line 400); `reduce` on an empty array throws, but
consolidation only reaches it with at least two records. -/
def reduceMostImportant : List Memory → Memory
  | [] =>
      { id := "", content := "", type := .semantic, timestamp := 0, importance := 0,
        emotionalValence := 0, associations := [], lastAccessed := 0, accessCount := 0 }
  | x :: xs => xs.foldl (fun mx m => if mx.importance < m.importance then m else mx) x

namespace MemoryService

/-- `consolidateMemories` (src/services/memory.ts lines 374-440).  `newId`
stands for the `uuidv4()` of the consolidated record. -/
def consolidateMemories (env : Env) (memoryIds : List String)
    (strategy : ConsolidationStrategy) (keepOriginals : Bool) (newId : String)
    (s : Store) : Res Memory :=
  match getMemoryList env memoryIds s with
  | .err e s1 => .err e s1
  | .ok mems s1 =>
      let validMemories := mems.reduceOption
      if validMemories.length < 2 then
        .err "Need at least 2 valid memories to consolidate" s1
      else
        let picked : String × ℚ × MemoryContext :=
          match strategy with
          | .merge_content =>
              (String.intercalate "\n\n---\n\n" (validMemories.map (·.content)),
               listMaxQ (validMemories.map (·.importance)),
               ({} : MemoryContext))
          | .summarize =>
              (env.summarizeTexts (validMemories.map (·.content)),
               (validMemories.map (·.importance)).sum / (validMemories.length : ℚ),
               ({} : MemoryContext))
          | .keep_most_important =>
              let mostImportant := reduceMostImportant validMemories
              (mostImportant.content, mostImportant.importance, mostImportant.context)
          | .create_composite =>
              ("Composite memory from " ++ toString validMemories.length ++ " sources:\n\n" ++
                 String.intercalate "\n"
                   (validMemories.map (fun m => "- " ++ jsTake m.content 100 ++ "...")),
               listMaxQ (validMemories.map (·.importance)),
               ({} : MemoryContext))
        let allTags := dedupFirst (validMemories.flatMap (fun m => m.context.tags.getD []))
        let consolidatedContext := { picked.2.2 with tags := some allTags }
        match createMemory env newId picked.1 .semantic (some consolidatedContext)
            (some picked.2.1) s1 with
        | .err e s2 => .err e s2
        | .ok consolidated s2 =>
            match connectAll env consolidated.id memoryIds s2 with
            | .err e s3 => .err e s3
            | .ok _ s3 =>
                let s4 := if keepOriginals then s3 else deleteOriginals memoryIds s3
                .ok consolidated s4

end MemoryService

/-- The recursive `dfs` of `findMemoryPaths`
(src/services/memory.ts lines 500-518).  The first argument is the
remaining depth budget `maxDepth + 1 - depth`; the shared `visited` set
always equals the set of ids on the current path (every child restores it
on exit), so the membership test uses the current path.  The child loop is
the fold over `memory.associations`.  The read goes through the bumping
service-level `getMemory`, whose only possible failure (concurrent removal
between retrieve and patch) is surfaced as an empty expansion. -/
def MemoryService.dfsPaths (env : Env) : Nat → String → String → List String → Store →
    (List (List String) × Store)
  | 0, _, _, _, s => ([], s)
  | fuel + 1, currentId, targetId, path, s =>
      if currentId = targetId then ([path ++ [currentId]], s)
      else
        match MemoryService.getMemory env currentId s with
        | .err _ s1 => ([], s1)
        | .ok none s1 => ([], s1)
        | .ok (some memory) s1 =>
            memory.associations.foldl
              (fun (acc : List (List String) × Store) assocId =>
                if assocId ∈ path ++ [currentId] then acc
                else
                  let res := MemoryService.dfsPaths env fuel assocId targetId
                    (path ++ [currentId]) acc.2
                  (acc.1 ++ res.1, res.2))
              ([], s1)

/-- `findMemoryPaths` (src/services/memory.ts lines 491-535) with
`includeContent = false`: the returned value is the list of id paths.  The
initial call is `dfs(startId, endId, [], 0)` and the guard `depth > maxDepth`
corresponds to a depth budget of `maxDepth + 1`. -/
def MemoryService.findMemoryPaths (env : Env) (startId endId : String) (maxDepth : Nat)
    (s : Store) : List (List String) × Store :=
  MemoryService.dfsPaths env (maxDepth + 1) startId endId [] s

/-- Clamp a JavaScript index argument into `[0, len]` (negative indices
clamp to 0, `Int.toNat` of a negative is 0). -/
def jsClamp (n : Int) (len : Nat) : Nat :=
  n.toNat.min len

/-- `String.prototype.substring(a, b)`: clamp both indices, swap if
reversed. -/
def jsSubstring (s : String) (a b : Int) : String :=
  let i := jsClamp a s.length
  let j := jsClamp b s.length
  ((s.data.drop (min i j)).take (max i j - min i j)).asString

/-- `String.prototype.indexOf(pat, fromIdx)`: first occurrence at or after
the clamped start, `-1` when absent. -/
def jsIndexOf (s pat : String) (fromIdx : Int) : Int :=
  let start := jsClamp fromIdx s.length
  match (List.range (s.length + 1 - start)).find?
      (fun k => pat.data.isPrefixOf (s.data.drop (start + k))) with
  | some k => ((start + k : Nat) : Int)
  | none => -1

/-- ASCII approximation of the `\s` class of the sentence regex (the
whitespace characters that occur in this grammar). -/
def isJsWhitespace (c : Char) : Bool :=
  c = ' ' || c = '\t' || c = '\n' || c = '\r'

/-- JavaScript `o || d` for an optional rational option (`0` is falsy). -/
def jsOrQ (o : Option ℚ) (d : ℚ) : ℚ :=
  match o with
  | some q => if q = 0 then d else q
  | none => d

/-- Chunking method (src/services/chunking.ts `ChunkingOptions.method`). -/
inductive ChunkMethod where
  | semantic
  | fixed
  | sentence
  | paragraph
deriving DecidableEq, Repr

/-- `ChunkingOptions` (src/services/chunking.ts lines 3-8). -/
structure ChunkingOptions where
  method : ChunkMethod
  maxChunkSize : Option Nat := none
  overlapSize : Option Nat := none
  semanticThreshold : Option ℚ := none
deriving DecidableEq, Repr

/-- `TextChunk` (src/services/chunking.ts lines 10-20), the metadata bag
flattened into optional fields. -/
structure TextChunk where
  content : String
  startIndex : Int
  endIndex : Int
  embedding : Option (List ℚ) := none
  sentenceCount : Option Nat := none
  avgSentenceLength : Option ℚ := none
  semanticDensity : Option ℚ := none
deriving DecidableEq, Repr

namespace ChunkingService

/-- Length bound for `List.dropWhile`, used for the termination of the
splitters below. -/
theorem dropWhile_length_le_self (p : Char → Bool) (l : List Char) :
    (l.dropWhile p).length ≤ l.length := by
  induction l with
  | nil => simp [List.dropWhile]
  | cons c rest ih =>
      simp only [List.dropWhile]
      split
      · exact Nat.le_succ_of_le ih
      · simp

/-- Core of the sentence splitter: the regex
`([.!?])\s*(?=[A-Z])` inserts a break after closing punctuation followed by
optional whitespace and an uppercase letter (whitespace consumed, the
uppercase letter kept by the lookahead). -/
def splitSentencesCore : List Char → List Char → List (List Char)
  | [], cur => [cur.reverse]
  | c :: rest, cur =>
      if c = '.' || c = '!' || c = '?' then
        match rest.dropWhile isJsWhitespace with
        | d :: _ =>
            if 'A' ≤ d && d ≤ 'Z' then
              (c :: cur).reverse :: splitSentencesCore (rest.dropWhile isJsWhitespace) []
            else splitSentencesCore rest (c :: cur)
        | [] => splitSentencesCore rest (c :: cur)
      else splitSentencesCore rest (c :: cur)
termination_by l _ => l.length
decreasing_by
  all_goals simp_wf
  all_goals (have hle := dropWhile_length_le_self isJsWhitespace rest; omega)

/-- `splitIntoSentences` (src/services/chunking.ts lines 256-265). -/
def splitIntoSentences (text : String) : List String :=
  ((splitSentencesCore text.data []).map (fun l => jsTrim l.asString)).filter (fun x => x ≠ "")

/-- `estimateTokens` (src/services/chunking.ts lines 267-270):
`Math.ceil(length / 4)`. -/
def estimateTokens (text : String) : Nat :=
  (text.length + 3) / 4

/-- End-of-window computation of one `fixedChunk` iteration
(src/services/chunking.ts lines 231-242): look for a `". "` from 50
characters before the nominal end; accept it when it lies less than 50
characters past the nominal end. -/
def fixedEnd (text : String) (maxSize : Nat) (startIndex : Int) : Int :=
  let endIndex0 : Int := startIndex + (maxSize : Int)
  if endIndex0 < (text.length : Int) then
    let searchStart := max startIndex (endIndex0 - 50)
    let sentenceEnd := jsIndexOf text ". " searchStart
    if sentenceEnd ≠ -1 && sentenceEnd < endIndex0 + 50 then sentenceEnd + 2
    else endIndex0
  else (text.length : Int)

/-- The `while (startIndex < text.length)` loop of `fixedChunk`
(src/services/chunking.ts lines 228-251), with an explicit fuel because the
source loop need not terminate; `none` means the fuel ran out. -/
def fixedChunkLoop (text : String) (maxSize overlapSize : Nat) :
    Nat → Int → List TextChunk → Option (List TextChunk)
  | 0, _, _ => none
  | fuel + 1, startIndex, chunks =>
      if startIndex < (text.length : Int) then
        let endIndex := fixedEnd text maxSize startIndex
        let chunk : TextChunk :=
          { content := jsSubstring text startIndex endIndex
            startIndex := startIndex
            endIndex := endIndex }
        fixedChunkLoop text maxSize overlapSize fuel (endIndex - (overlapSize : Int))
          (chunks ++ [chunk])
      else some chunks

/-- `fixedChunk` (src/services/chunking.ts lines 223-254).  The default
overlap is `Math.floor(maxSize * 0.1)`. -/
def fixedChunk (text : String) (o : ChunkingOptions) (fuel : Nat) :
    Option (List TextChunk) :=
  let maxSize := jsOrNat o.maxChunkSize 500
  let overlapSize := jsOrNat o.overlapSize (maxSize / 10)
  fixedChunkLoop text maxSize overlapSize fuel 0 []

/-- One step of the `sentenceChunk` accumulation loop
(src/services/chunking.ts lines 147-180). -/
def sentenceLoop (text : String) (o : ChunkingOptions) (sentences : List String)
    (i : Nat) (currentChunk : List String) (currentTokens : Nat)
    (chunkStartIndex : Int) (chunks : List TextChunk) : List TextChunk :=
  if h : i < sentences.length then
    let sentence := sentences.get ⟨i, h⟩
    let sentenceTokens := estimateTokens sentence
    let overLimit :=
      match o.maxChunkSize with
      | some mx => mx ≠ 0 && currentTokens + sentenceTokens > mx && currentChunk.length > 0
      | none => false
    if overLimit then
      let chunkContent := String.intercalate " " currentChunk
      let closed : TextChunk :=
        { content := chunkContent
          startIndex := chunkStartIndex
          endIndex := chunkStartIndex + (chunkContent.length : Int)
          sentenceCount := some currentChunk.length
          avgSentenceLength := some ((chunkContent.length : ℚ) / (currentChunk.length : ℚ)) }
      let chunks := chunks ++ [closed]
      let overlapOn : Bool := match o.overlapSize with | some ov => ov != 0 | none => false
      if overlapOn then
        let ov := (o.overlapSize.getD 0 + 49) / 50
        let startIdx := i - ov
        let currentChunk := (sentences.drop startIdx).take (i - startIdx)
        let currentTokens := (currentChunk.map estimateTokens).sum
        let chunkStartIndex := jsIndexOf text (currentChunk.headD "") 0
        sentenceLoop text o sentences (i + 1) (currentChunk ++ [sentence])
          (currentTokens + sentenceTokens) chunkStartIndex chunks
      else
        let chunkStartIndex := jsIndexOf text sentence 0
        sentenceLoop text o sentences (i + 1) [sentence] sentenceTokens chunkStartIndex chunks
    else
      sentenceLoop text o sentences (i + 1) (currentChunk ++ [sentence])
        (currentTokens + sentenceTokens) chunkStartIndex chunks
  else
    if currentChunk.length > 0 then
      let chunkContent := String.intercalate " " currentChunk
      chunks ++
        [{ content := chunkContent
           startIndex := chunkStartIndex
           endIndex := chunkStartIndex + (chunkContent.length : Int)
           sentenceCount := some currentChunk.length
           avgSentenceLength := some ((chunkContent.length : ℚ) / (currentChunk.length : ℚ)) }]
    else chunks
termination_by sentences.length - i

/-- `sentenceChunk` (src/services/chunking.ts lines 140-197). -/
def sentenceChunk (text : String) (o : ChunkingOptions) : List TextChunk :=
  sentenceLoop text o (splitIntoSentences text) 0 [] 0 0 []

/-- Core of the split on `/\n\n+/` (two or more newlines, greedy). -/
def splitBlankCore : List Char → List Char → List (List Char)
  | [], cur => [cur.reverse]
  | '\n' :: '\n' :: rest, cur =>
      cur.reverse :: splitBlankCore (rest.dropWhile (fun c => c = '\n')) []
  | c :: rest, cur => splitBlankCore rest (c :: cur)
termination_by l _ => l.length
decreasing_by
  all_goals simp_wf
  all_goals (have hle := dropWhile_length_le_self (fun c => c = '\n') rest; omega)

/-- Position-threading loop of `paragraphChunk`
(src/services/chunking.ts lines 204-218). -/
def paragraphLoop (text : String) : List String → Int → List TextChunk
  | [], _ => []
  | p :: rest, currentIndex =>
      let startIndex := jsIndexOf text p currentIndex
      let endIndex := startIndex + (p.length : Int)
      { content := p
        startIndex := startIndex
        endIndex := endIndex
        sentenceCount := some (splitIntoSentences p).length } :: paragraphLoop text rest endIndex

/-- `paragraphChunk` (src/services/chunking.ts lines 199-221). -/
def paragraphChunk (text : String) (_o : ChunkingOptions) : List TextChunk :=
  let paragraphs :=
    ((splitBlankCore text.data []).map List.asString).filter (fun p => jsTrim p ≠ "")
  paragraphLoop text paragraphs 0

/-- `cosineSimilarity` applied to possibly-undefined vectors
(src/services/chunking.ts lines 272-286): undefined on either side gives 0;
the defined case is the floating-point computation, an `Env` oracle since
`Math.sqrt` is irrational. -/
def cosOpt (env : Env) (a b : Option (List ℚ)) : ℚ :=
  match a, b with
  | some x, some y => env.cosineSim x y
  | _, _ => 0

/-- `averageEmbeddings` (src/services/chunking.ts lines 288-301) on the
already-defined slices the semantic chunker passes: the mean vector, sized
by the first embedding.  An empty slice gives `undefined`. -/
def averageEmbeddings (l : List (List ℚ)) : Option (List ℚ) :=
  match l with
  | [] => none
  | e :: _ =>
      some ((List.range e.length).map (fun i =>
        (l.map (fun v => v.getD i 0)).sum / (l.length : ℚ)))

/-- `calculateSemanticDensity` (src/services/chunking.ts lines 303-317):
mean pairwise cosine similarity, 1 when fewer than two embeddings. -/
def calculateSemanticDensity (env : Env) (embs : List (List ℚ)) : ℚ :=
  if embs.length < 2 then 1
  else
    let sims := (List.range embs.length).flatMap (fun i =>
      (List.range embs.length).filterMap (fun j =>
        if i < j then some (env.cosineSim (embs.getD i []) (embs.getD j [])) else none))
    if sims.length > 0 then sims.sum / (sims.length : ℚ) else 0

/-- The `for (let i = 1; ...)` loop of `semanticChunk`
(src/services/chunking.ts lines 72-135), including the final-chunk push. -/
def semanticLoop (env : Env) (text : String) (o : ChunkingOptions)
    (sentences : List String) (embs : List (List ℚ)) (threshold : ℚ) (i : Nat)
    (currentChunk : List String) (chunkStartIndex : Nat)
    (curEmb : Option (List ℚ)) (chunks : List TextChunk) : List TextChunk :=
  if h : i < sentences.length then
    let si := sentences.get ⟨i, h⟩
    let similarity := cosOpt env curEmb (embs.get? i)
    let estimatedTokens := estimateTokens (String.intercalate " " currentChunk ++ " " ++ si)
    let withinSize :=
      match o.maxChunkSize with
      | some mx => mx = 0 || estimatedTokens ≤ mx
      | none => true
    if threshold ≤ similarity && withinSize then
      let curEmb :=
        (averageEmbeddings ((embs.drop chunkStartIndex).take (i + 1 - chunkStartIndex))).orElse
          (fun _ => curEmb)
      semanticLoop env text o sentences embs threshold (i + 1) (currentChunk ++ [si])
        chunkStartIndex curEmb chunks
    else
      let chunkContent := String.intercalate " " currentChunk
      let startIdx := jsIndexOf text (currentChunk.headD "") 0
      let closed : TextChunk :=
        { content := chunkContent
          startIndex := startIdx
          endIndex := startIdx + (chunkContent.length : Int)
          embedding := curEmb
          sentenceCount := some currentChunk.length
          avgSentenceLength := some ((chunkContent.length : ℚ) / (currentChunk.length : ℚ))
          semanticDensity := some (calculateSemanticDensity env
            ((embs.drop chunkStartIndex).take (i - chunkStartIndex))) }
      let chunks := chunks ++ [closed]
      let overlapOn : Bool := match o.overlapSize with | some ov => ov != 0 | none => false
      if overlapOn then
        let ovs := (o.overlapSize.getD 0 + 49) / 50
        let startIdx2 := i - ovs
        let currentChunk := (sentences.drop startIdx2).take (i + 1 - startIdx2)
        let curEmb :=
          (averageEmbeddings ((embs.drop startIdx2).take (i + 1 - startIdx2))).orElse
            (fun _ => embs.get? i)
        semanticLoop env text o sentences embs threshold (i + 1) currentChunk startIdx2
          curEmb chunks
      else
        semanticLoop env text o sentences embs threshold (i + 1) [si] i (embs.get? i) chunks
  else
    if currentChunk.length > 0 then
      let chunkContent := String.intercalate " " currentChunk
      let startIdx := jsIndexOf text (currentChunk.headD "") 0
      chunks ++
        [{ content := chunkContent
           startIndex := startIdx
           endIndex := startIdx + (chunkContent.length : Int)
           embedding := curEmb
           sentenceCount := some currentChunk.length
           avgSentenceLength := some ((chunkContent.length : ℚ) / (currentChunk.length : ℚ))
           semanticDensity := some (calculateSemanticDensity env (embs.drop chunkStartIndex)) }]
    else chunks
termination_by sentences.length - i

/-- `semanticChunk` (src/services/chunking.ts lines 43-138): sentence
groups with one sentence of context, batched embeddings, similarity-driven
growth. -/
def semanticChunk (env : Env) (text : String) (o : ChunkingOptions) : List TextChunk :=
  let sentences := splitIntoSentences text
  if sentences.isEmpty then []
  else
    let sentenceGroups := (List.range sentences.length).map (fun i =>
      let prevSentence := if i > 0 then sentences.getD (i - 1) "" else ""
      let nextSentence := sentences.getD (i + 1) ""
      jsTrim (prevSentence ++ " " ++ sentences.getD i "" ++ " " ++ nextSentence))
    let embs := env.createEmbeddings sentenceGroups
    let threshold := jsOrQ o.semanticThreshold (3/4)
    semanticLoop env text o sentences embs threshold 1 [sentences.headD ""] 0 (embs.get? 0) []

/-- `chunkText` dispatch (src/services/chunking.ts lines 29-41).  Only the
fixed strategy can loop forever, hence only it consumes fuel; `none` means
the source loop does not finish within the given fuel. -/
def chunkText (env : Env) (text : String) (o : ChunkingOptions) (fuel : Nat) :
    Option (List TextChunk) :=
  match o.method with
  | .semantic => some (semanticChunk env text o)
  | .sentence => some (sentenceChunk text o)
  | .paragraph => some (paragraphChunk text o)
  | .fixed => fixedChunk text o fuel

end ChunkingService

/-- A stub environment for concrete scenarios: clock tick 100, all oracles
trivial, empty ranked search results. -/
def stubEnv : Env :=
  { now := 100
    analyzeEmotion := fun _ => 0
    extractKeywords := fun _ => []
    createEmbedding := fun _ => []
    createEmbeddings := fun _ => []
    summarizeTexts := fun _ => ""
    clientSearch := fun _ _ _ _ => []
    cosineSim := fun _ _ => 0 }

/-- Concrete record builder for scenarios: fresh counters, no context. -/
def mkMem (id content : String) (importance : ℚ) (associations : List String) : Memory :=
  { id := id
    content := content
    type := MemoryType.semantic
    timestamp := 0
    importance := importance
    emotionalValence := 0
    associations := associations
    lastAccessed := 0
    accessCount := 0 }

/-- Value projection of a `Res`. -/
def Res.valOf {α : Type} : Res α → Option α
  | .ok a _ => some a
  | .err _ _ => none

/-- Store projection of a `Res`. -/
def Res.storeOf {α : Type} : Res α → Store
  | .ok _ s => s
  | .err _ s => s

/-- Error projection of a `Res`. -/
def Res.errOf {α : Type} : Res α → Option String
  | .ok _ _ => none
  | .err e _ => some e

/-- 0.9 as a kernel-evaluable rational literal (`Rat` division does not
reduce in the kernel, the raw constructor does). -/
def q09 : ℚ := ⟨9, 10, by decide, by decide⟩

/-- 0.5 as a kernel-evaluable rational literal. -/
def q05 : ℚ := ⟨1, 2, by decide, by decide⟩

/-- 0.1 as a kernel-evaluable rational literal. -/
def q01 : ℚ := ⟨1, 10, by decide, by decide⟩


/-- The full-projection list of a search output (`[]` for a compact one). -/
def SearchOut.fullList : SearchOut → List Memory
  | .full l => l
  | .compact _ => []

/-! ### Concrete scenario fixtures -/

/-- C1 and C9 scenario: a source holding ten associations, and fresh
records to connect. -/
def capStore : Store :=
  [mkMem "S" "s" 1 ["t1", "t2", "t3", "t4", "t5", "t6", "t7", "t8", "t9", "t10"],
   mkMem "t11" "t" 1 []]

/-- Connecting an eleventh target to a source already at the cap. -/
def capRun : Res Unit := MemoryService.connectMemories stubEnv "S" "t11" true capStore

/-- C9 scenario: two fresh records, no associations yet. -/
def c9Store : Store := [mkMem "X" "x" 1 [], mkMem "Y" "y" 1 []]

/-- A single `connect` on fresh records. -/
def c9Run : Res Unit := MemoryService.connectMemories stubEnv "X" "Y" false c9Store

/-- C2 failing input: a plain short sentence, chunked with the fixed
strategy and default sizes (`maxChunkSize` 500, overlap 50). -/
def c2Text : String := "The quick brown fox jumps over the lazy dog."

/-- C3 scenario: the parent record of a chunked memory. -/
def c3Parent : Memory :=
  { mkMem "P" "[Chunked Memory - 101 parts] preview..." q09 [] with
    context := { isParentChunk := some true, totalChunks := some 101 } }

/-- C3 scenario: child number `i`, carrying the chunk lineage fields
written by `createMemoryWithChunking` (src/services/memory.ts lines 59-84). -/
def c3Child (i : Nat) : Memory :=
  { mkMem ("ch" ++ toString i) ("c" ++ toString i) q01 [] with
    context := { chunkOf := some "P", chunkIndex := some i } }

/-- C3 counterexample store: a parent with 101 children. -/
def c3Store : Store := c3Parent :: (List.range 101).map c3Child

/-- A search that returns exactly the parent (filter-only path). -/
def c3Params : MemorySearchParams := { query := "", minImportance := some q05 }

/-- The reconstructing search on the 101-children store. -/
def c3Run : Res SearchOut := MemoryService.searchChunkedMemories stubEnv c3Params true c3Store

/-- All 101 children of the C3 parent. -/
def c3AllChildren : List Memory := (List.range 101).map c3Child

/-- What the claim expects: every child, sorted by `chunkIndex`, joined
with a blank line. -/
def c3Expected : String :=
  String.intercalate "\n\n" ((MemoryService.sortByChunkIndex c3AllChildren).map (·.content))

/-- The record list the reconstructing search actually returns. -/
def c3Out : List Memory :=
  match c3Run with
  | .ok out _ => out.fullList
  | .err _ _ => []

/-- C3 witness scenario: a chunk parent with two children, inside the
scroll cap. -/
def c3wParent : Memory :=
  { mkMem "P" "[Chunked Memory - 2 parts] pre..." q09 [] with
    context := { isParentChunk := some true, totalChunks := some 2 } }

/-- First witness child. -/
def c3wCh0 : Memory :=
  { mkMem "ch0" "first part" q01 [] with
    context := { chunkOf := some "P", chunkIndex := some 0 } }

/-- Second witness child. -/
def c3wCh1 : Memory :=
  { mkMem "ch1" "second part" q01 [] with
    context := { chunkOf := some "P", chunkIndex := some 1 } }

/-- The witness store. -/
def c3wStore : Store := [c3wParent, c3wCh0, c3wCh1]

/-- The witness store after the search bumped the parent. -/
def c3wPost : Store :=
  [{ c3wParent with lastAccessed := 100, accessCount := 1 }, c3wCh0, c3wCh1]

/-- C4 scenario store: records A and B of the spec. -/
def c4Store : Store :=
  [mkMem "A" "The sky is blue" q09 [], mkMem "B" "Clouds are white" q05 []]

/-- The consolidation of the C4 scenario. -/
def c4Run : Res Memory :=
  MemoryService.consolidateMemories stubEnv ["A", "B"] .keep_most_important false "C" c4Store

/-- C5 scenario: the association chain A to B to C to D. -/
def chainStore : Store :=
  [mkMem "A" "a" 1 ["B"], mkMem "B" "b" 1 ["C"], mkMem "C" "c" 1 ["D"], mkMem "D" "d" 1 []]

/-- C6 scenario: X matches the importance filter and is associated to Y,
which does not match. -/
def c6Store : Store := [mkMem "X" "x" q09 ["Y"], mkMem "Y" "y" q01 []]

/-- Filter-only search with `includeAssociations`. -/
def c6Params : MemorySearchParams :=
  { query := "", minImportance := some q05, includeAssociations := true }

/-- The C6 search. -/
def c6Run : Res SearchOut := MemoryService.searchMemories stubEnv c6Params c6Store

/-- The record list the C6 search actually returns. -/
def c6Out : List Memory :=
  match c6Run with
  | .ok out _ => out.fullList
  | .err _ _ => []

/-- C7 failing input: two resolvable ids and one unresolvable id. -/
def c7Run : Res Memory :=
  MemoryService.consolidateMemories stubEnv ["A", "B", "missing"] .merge_content false "C" c4Store

/-- C10 scenario: a consolidation of episodic records. -/
def c10Store : Store :=
  [{ mkMem "A" "The sky is blue" q09 [] with type := .episodic },
   { mkMem "B" "Clouds are white" q05 [] with type := .episodic }]

/-- The C10 consolidation run (composite strategy, originals kept). -/
def c10Run : Res Memory :=
  MemoryService.consolidateMemories stubEnv ["A", "B"] .create_composite true "C" c10Store

/-! ### Store lemmas -/

theorem getMemory_setPayload_self (s : Store) (id : String) (m v : Memory)
    (h : QdrantService.getMemory s id = some m) (hv : v.id = id) :
    QdrantService.getMemory (QdrantService.setPayload s id v) id = some v := by
  induction s with
  | nil => simp [QdrantService.getMemory] at h
  | cons x rest ih =>
      simp only [QdrantService.getMemory, QdrantService.setPayload, List.map_cons,
        List.find?_cons] at h ⊢
      by_cases hx : x.id = id
      · simp [hx, hv]
      · simp only [if_neg hx, decide_eq_false hx] at h ⊢
        exact ih h

theorem getMemory_setPayload_ne (s : Store) (id j : String) (v : Memory)
    (hv : v.id = id) (hne : j ≠ id) :
    QdrantService.getMemory (QdrantService.setPayload s id v) j =
      QdrantService.getMemory s j := by
  have hvj : ¬ (v.id = j) := by rw [hv]; exact fun hj => hne hj.symm
  induction s with
  | nil => simp [QdrantService.getMemory, QdrantService.setPayload]
  | cons x rest ih =>
      simp only [QdrantService.getMemory, QdrantService.setPayload, List.map_cons,
        List.find?_cons] at ih ⊢
      by_cases hx : x.id = id
      · have hxj : ¬ (x.id = j) := by rw [hx]; exact fun hj => hne hj.symm
        simp only [if_pos hx, decide_eq_false hvj, decide_eq_false hxj]
        exact ih
      · simp only [if_neg hx]
        by_cases hj : x.id = j
        · simp [hj]
        · simp only [decide_eq_false hj]
          exact ih

theorem getMemory_id (s : Store) (id : String) (m : Memory)
    (h : QdrantService.getMemory s id = some m) : m.id = id := by
  unfold QdrantService.getMemory at h
  have := List.find?_some h
  simpa using this

theorem updateMemoryMetadata_spec (env : Env) (s : Store) (id : String)
    (p : MemoryPatch) (m : Memory) (h : QdrantService.getMemory s id = some m) :
    QdrantService.updateMemoryMetadata env s id p =
      .ok () (QdrantService.setPayload s id
        { applyPatch m p with
          lastAccessed := env.now, accessCount := m.accessCount + 1 }) := by
  unfold QdrantService.updateMemoryMetadata
  rw [h]

theorem serviceGet_spec (env : Env) (id : String) (s : Store) (m : Memory)
    (h : QdrantService.getMemory s id = some m) :
    MemoryService.getMemory env id s =
      .ok (some m) (QdrantService.setPayload s id
        { m with lastAccessed := env.now, accessCount := m.accessCount + 1 }) := by
  unfold MemoryService.getMemory
  simp only [h]
  simp only [updateMemoryMetadata_spec env s id _ m h]
  rfl

theorem serviceGet_none (env : Env) (id : String) (s : Store)
    (h : QdrantService.getMemory s id = none) :
    MemoryService.getMemory env id s = .ok none s := by
  unfold MemoryService.getMemory
  simp only [h]

theorem connect_effect (env : Env) (s : Store) (sid tid : String) (b : Bool)
    (src tgt : Memory)
    (hs : QdrantService.getMemory s sid = some src)
    (ht : QdrantService.getMemory s tid = some tgt)
    (hne : sid ≠ tid)
    (hnew : tid ∉ src.associations) :
    ∃ s' m', MemoryService.connectMemories env sid tid b s = .ok () s' ∧
      QdrantService.getMemory s' sid = some m' ∧
      m'.associations = (src.associations ++ [tid]).take 10 ∧
      m'.accessCount = src.accessCount + 2 ∧
      m'.lastAccessed = env.now := by
  have hsid : src.id = sid := getMemory_id s sid src hs
  have htid : tgt.id = tid := getMemory_id s tid tgt ht
  have hnet : tid ≠ sid := fun hh => hne hh.symm
  set src1 : Memory := { src with lastAccessed := env.now, accessCount := src.accessCount + 1 }
    with hsrc1
  set s1 := QdrantService.setPayload s sid src1 with hs1def
  have hsrc1id : src1.id = sid := by rw [hsrc1]; exact hsid
  have ht1 : QdrantService.getMemory s1 tid = some tgt := by
    rw [hs1def, getMemory_setPayload_ne s sid tid src1 hsrc1id hnet]
    exact ht
  set tgt1 : Memory := { tgt with lastAccessed := env.now, accessCount := tgt.accessCount + 1 }
    with htgt1
  set s2 := QdrantService.setPayload s1 tid tgt1 with hs2def
  have htgt1id : tgt1.id = tid := by rw [htgt1]; exact htid
  have hs2sid : QdrantService.getMemory s2 sid = some src1 := by
    rw [hs2def, getMemory_setPayload_ne s1 tid sid tgt1 htgt1id hne]
    rw [hs1def]
    exact getMemory_setPayload_self s sid src src1 hs hsrc1id
  set patch : MemoryPatch := { associations := some ((src.associations ++ [tid]).take 10) }
    with hpatch
  set src2 : Memory :=
    { applyPatch src1 patch with lastAccessed := env.now, accessCount := src1.accessCount + 1 }
    with hsrc2
  have hsrc2id : src2.id = sid := by rw [hsrc2, hpatch]; exact hsid
  set s3 := QdrantService.setPayload s2 sid src2 with hs3def
  have hs3sid : QdrantService.getMemory s3 sid = some src2 := by
    rw [hs3def]
    exact getMemory_setPayload_self s2 sid src1 src2 hs2sid hsrc2id
  have hprops : src2.associations = (src.associations ++ [tid]).take 10 ∧
      src2.accessCount = src.accessCount + 2 ∧ src2.lastAccessed = env.now := by
    refine ⟨rfl, ?_, rfl⟩
    rw [hsrc2, hsrc1]
  -- now unfold the operation
  unfold MemoryService.connectMemories
  simp only [serviceGet_spec env sid s src hs]
  rw [← hs1def]
  simp only [serviceGet_spec env tid s1 tgt ht1]
  rw [← hs2def]
  simp only [if_neg hnew]
  simp only [updateMemoryMetadata_spec env s2 sid patch src1 hs2sid]
  rw [← hsrc2, ← hs3def]
  by_cases hb : (b && !(src.id ∈ tgt.associations : Bool)) = true
  · simp only [hb, if_true]
    simp only [updateMemoryMetadata_spec env s3 tid _ tgt1 (by
      rw [hs3def, getMemory_setPayload_ne s2 sid tid src2 hsrc2id hnet, hs2def]
      exact getMemory_setPayload_self s1 tid tgt tgt1 ht1 htgt1id)]
    refine ⟨_, src2, rfl, ?_, hprops.1, hprops.2.1, hprops.2.2⟩
    rw [getMemory_setPayload_ne s3 tid sid _ (by exact htgt1id) hne]
    exact hs3sid
  · simp only [hb, if_false]
    exact ⟨s3, src2, rfl, hs3sid, hprops.1, hprops.2.1, hprops.2.2⟩

theorem removeAssociation_effect (env : Env) (s : Store) (sid tid : String)
    (src : Memory)
    (hs : QdrantService.getMemory s sid = some src)
    (hmem : tid ∈ src.associations) :
    ∃ s' m', MemoryService.removeAssociation env sid tid false s = .ok () s' ∧
      QdrantService.getMemory s' sid = some m' ∧
      m'.associations = src.associations.filter (fun i => i ≠ tid) ∧
      m'.accessCount = src.accessCount + 2 ∧
      m'.lastAccessed = env.now := by
  have hsid : src.id = sid := getMemory_id s sid src hs
  set src1 : Memory := { src with lastAccessed := env.now, accessCount := src.accessCount + 1 }
    with hsrc1
  set s1 := QdrantService.setPayload s sid src1 with hs1def
  have hsrc1id : src1.id = sid := by rw [hsrc1]; exact hsid
  have hs1sid : QdrantService.getMemory s1 sid = some src1 := by
    rw [hs1def]
    exact getMemory_setPayload_self s sid src src1 hs hsrc1id
  set patch : MemoryPatch :=
    { associations := some (src.associations.filter (fun i => i ≠ tid)) } with hpatch
  set src2 : Memory :=
    { applyPatch src1 patch with lastAccessed := env.now, accessCount := src1.accessCount + 1 }
    with hsrc2
  have hsrc2id : src2.id = sid := by rw [hsrc2, hpatch]; exact hsid
  unfold MemoryService.removeAssociation
  simp only [serviceGet_spec env sid s src hs]
  rw [← hs1def]
  simp only [if_pos hmem]
  simp only [updateMemoryMetadata_spec env s1 sid patch src1 hs1sid]
  rw [← hsrc2]
  refine ⟨_, src2, rfl, ?_, rfl, ?_, rfl⟩
  · exact getMemory_setPayload_self s1 sid src1 src2 hs1sid hsrc2id
  · rw [hsrc2, hsrc1]

theorem updateMemory_noContent_effect (env : Env) (id : String) (updates : MemoryPatch)
    (s : Store) (m : Memory)
    (hm : QdrantService.getMemory s id = some m)
    (hc : updates.content = none)
    (hq : MemoryService.importanceOutOfRange updates.importance = false) :
    ∃ s' m', MemoryService.updateMemory env id updates s = .ok (some (applyPatch m updates)) s' ∧
      QdrantService.getMemory s' id = some m' ∧
      m'.accessCount = m.accessCount + 1 ∧
      m'.lastAccessed = env.now ∧
      m'.importance = updates.importance.getD m.importance := by
  have hmid : m.id = id := getMemory_id s id m hm
  set m2 : Memory :=
    { applyPatch m updates with lastAccessed := env.now, accessCount := m.accessCount + 1 }
    with hm2
  have hm2id : m2.id = id := by rw [hm2]; exact hmid
  unfold MemoryService.updateMemory
  simp only [hm, hc]
  simp only [hq, Bool.false_eq_true, if_false]
  simp only [updateMemoryMetadata_spec env s id updates m hm]
  rw [← hm2]
  refine ⟨_, m2, rfl, ?_, rfl, rfl, rfl⟩
  exact getMemory_setPayload_self s id m m2 hm hm2id

theorem bumpAccess_spec (env : Env) : ∀ (L : List Memory) (s : Store),
    (∀ x ∈ L, QdrantService.getMemory s x.id = some x) →
    (L.map (fun m => m.id)).Nodup →
    ∃ s', MemoryService.bumpAccess env L s = .ok () s' ∧
      (∀ x ∈ L, QdrantService.getMemory s' x.id =
        some { x with lastAccessed := env.now, accessCount := x.accessCount + 1 }) ∧
      (∀ j, j ∉ L.map (fun m => m.id) →
        QdrantService.getMemory s' j = QdrantService.getMemory s j)
  | [], s, _, _ => ⟨s, rfl, by simp, fun j _ => rfl⟩
  | x :: rest, s, hmem, hnd => by
      have hx : QdrantService.getMemory s x.id = some x := hmem x (by simp)
      set x1 : Memory := { x with lastAccessed := env.now, accessCount := x.accessCount + 1 }
        with hx1
      set s1 := QdrantService.setPayload s x.id x1 with hs1def
      have hx1id : x1.id = x.id := by rw [hx1]
      have hndc : x.id ∉ rest.map (fun m => m.id) ∧ (rest.map (fun m => m.id)).Nodup := by
        rw [List.map_cons, List.nodup_cons] at hnd
        exact hnd
      have hxrest : x.id ∉ rest.map (fun m => m.id) := hndc.1
      set patch : MemoryPatch :=
        { lastAccessed := some env.now, accessCount := some (x.accessCount + 1) } with hpatch
      have hrest : ∀ y ∈ rest, QdrantService.getMemory s1 y.id = some y := by
        intro y hy
        have hyne : y.id ≠ x.id := by
          intro hh
          exact hxrest (hh ▸ List.mem_map_of_mem (fun m => m.id) hy)
        rw [hs1def, getMemory_setPayload_ne s x.id y.id x1 hx1id hyne]
        exact hmem y (by simp [hy])
      obtain ⟨s', hok, hb, hpres⟩ := bumpAccess_spec env rest s1 hrest hndc.2
      refine ⟨s', ?_, ?_, ?_⟩
      · unfold MemoryService.bumpAccess
        simp only [updateMemoryMetadata_spec env s x.id patch x hx]
        have hred : ({ applyPatch x patch with
            lastAccessed := env.now, accessCount := x.accessCount + 1 } : Memory) = x1 := rfl
        rw [hred, ← hs1def]
        exact hok
      · intro z hz
        rcases List.mem_cons.mp hz with hzx | hzr
        · subst hzx
          rw [hpres z.id hxrest, hs1def]
          exact getMemory_setPayload_self s z.id z x1 hx hx1id
        · exact hb z hzr
      · intro j hj
        have hj1 : j ∉ rest.map (fun m => m.id) := fun hh => hj (by simp [hh])
        have hj2 : j ≠ x.id := fun hh => hj (by simp [hh])
        rw [hpres j hj1, hs1def, getMemory_setPayload_ne s x.id j x1 hx1id hj2]

theorem searchMemories_spec (env : Env) (p : MemorySearchParams) (s : Store)
    (hmem : ∀ x ∈ MemoryService.searchPrimary env p s, QdrantService.getMemory s x.id = some x)
    (hnd : ((MemoryService.searchPrimary env p s).map (fun m => m.id)).Nodup) :
    ∃ out s', MemoryService.searchMemories env p s = .ok out s' ∧
      (∀ x ∈ MemoryService.searchPrimary env p s, QdrantService.getMemory s' x.id =
        some { x with lastAccessed := env.now, accessCount := x.accessCount + 1 }) ∧
      (∀ j, j ∉ (MemoryService.searchPrimary env p s).map (fun m => m.id) →
        QdrantService.getMemory s' j = QdrantService.getMemory s j) := by
  obtain ⟨s', hok, hb, hpres⟩ := bumpAccess_spec env (MemoryService.searchPrimary env p s) s hmem hnd
  unfold MemoryService.searchMemories
  simp only [hok]
  by_cases hinc : p.includeAssociations
  · exact ⟨.full (MemoryService.appendAssociated s' (MemoryService.searchPrimary env p s)), s',
      by simp [hinc], hb, hpres⟩
  · by_cases hdl : p.detailLevel = some DetailLevel.compact
    · exact ⟨.compact (MemoryService.toCompactMemories (MemoryService.searchPrimary env p s)), s',
        by simp [hinc, hdl], hb, hpres⟩
    · exact ⟨.full (MemoryService.searchPrimary env p s), s',
        by simp [hinc, hdl], hb, hpres⟩

theorem calculateImportance_bounds (content : String) (ty : MemoryType) :
    0 ≤ MemoryService.calculateImportance content ty ∧
      MemoryService.calculateImportance content ty ≤ 1 := by
  unfold MemoryService.calculateImportance
  constructor
  · apply le_min
    · norm_num
    · split_ifs <;> norm_num
  · exact min_le_left 1 _

theorem createMemory_type (env : Env) (newId content : String) (ty : MemoryType)
    (ctx : Option MemoryContext) (importance : Option ℚ) (s : Store) (m : Memory)
    (s' : Store) (h : MemoryService.createMemory env newId content ty ctx importance s = .ok m s') :
    m.type = ty := by
  simp only [MemoryService.createMemory] at h
  split at h
  · cases h
  · split at h
    · cases h
    · split at h
      · cases h
      · cases h
        rfl

theorem createMemory_importance (env : Env) (newId content : String) (ty : MemoryType)
    (ctx : Option MemoryContext) (importance : Option ℚ) (s : Store) (m : Memory)
    (s' : Store) (h : MemoryService.createMemory env newId content ty ctx importance s = .ok m s') :
    m.importance = importance.getD (MemoryService.calculateImportance content ty) ∧
      MemoryService.importanceOutOfRange importance = false := by
  simp only [MemoryService.createMemory] at h
  split at h
  · cases h
  · rename_i hrange
    split at h
    · cases h
    · rename_i hoor
      split at h
      · cases h
      · cases h
        exact ⟨rfl, by simpa using hoor⟩

theorem fixedChunkLoop_fixpoint (text : String) (maxSize overlapSize : Nat) (x : Int)
    (hx : x < (text.length : Int))
    (hfix : ChunkingService.fixedEnd text maxSize x - (overlapSize : Int) = x) :
    ∀ (fuel : Nat) (acc : List TextChunk),
      ChunkingService.fixedChunkLoop text maxSize overlapSize fuel x acc = none := by
  intro fuel
  induction fuel with
  | zero => intro acc; rfl
  | succ n ih =>
      intro acc
      unfold ChunkingService.fixedChunkLoop
      rw [if_pos hx]
      simp only [hfix]
      exact ih _

theorem reconstructLoop_mem (s : Store) :
    ∀ (mems : List Memory) (processed : List String) (parent : Memory),
    parent ∈ mems →
    parent.context.isParentChunk = some true →
    parent.id ∉ processed →
    (mems.map (fun m => m.id)).Nodup →
    0 < (QdrantService.searchByMetadata s parent.id).length →
    ∃ r ∈ MemoryService.reconstructLoop s mems processed,
      r.id = parent.id ∧
      r.content = String.intercalate "\n\n"
        ((MemoryService.sortByChunkIndex (QdrantService.searchByMetadata s parent.id)).map
          (fun c => c.content)) ∧
      r.metadata.reconstructed = true := by
  intro mems
  induction mems with
  | nil => intro processed parent hp; simp at hp
  | cons memory rest ih =>
      intro processed parent hmem hpc hnp hnd hchunks
      have hndc : memory.id ∉ rest.map (fun m => m.id) ∧ (rest.map (fun m => m.id)).Nodup := by
        rw [List.map_cons, List.nodup_cons] at hnd
        exact hnd
      rcases List.mem_cons.mp hmem with heq | hrest
      · subst heq
        unfold MemoryService.reconstructLoop
        have hcond : (decide (parent.context.isParentChunk = some true) &&
            !(parent.id ∈ processed : Bool)) = true := by
          simp [hpc, hnp]
        rw [if_pos hcond]
        rw [if_pos hchunks]
        refine ⟨_, List.mem_cons_self _ _, rfl, rfl, rfl⟩
      · have hpne : memory.id ≠ parent.id := by
          intro hh
          exact hndc.1 (hh ▸ List.mem_map_of_mem (fun m => m.id) hrest)
        unfold MemoryService.reconstructLoop
        by_cases hc1 : (decide (memory.context.isParentChunk = some true) &&
            !(memory.id ∈ processed : Bool)) = true
        · rw [if_pos hc1]
          by_cases hc2 : 0 < (QdrantService.searchByMetadata s memory.id).length
          · rw [if_pos hc2]
            have hnp2 : parent.id ∉ memory.id :: processed := by
              intro hh
              rcases List.mem_cons.mp hh with hh1 | hh2
              · exact hpne hh1.symm
              · exact hnp hh2
            obtain ⟨r, hr, hprops⟩ := ih (memory.id :: processed) parent hrest hpc hnp2 hndc.2 hchunks
            exact ⟨r, List.mem_cons_of_mem _ hr, hprops⟩
          · rw [if_neg hc2]
            obtain ⟨r, hr, hprops⟩ := ih processed parent hrest hpc hnp hndc.2 hchunks
            exact ⟨r, List.mem_cons_of_mem _ hr, hprops⟩
        · rw [if_neg hc1]
          by_cases hc3 : (!MemoryService.truthyStr memory.context.chunkOf) = true
          · rw [if_pos hc3]
            obtain ⟨r, hr, hprops⟩ := ih processed parent hrest hpc hnp hndc.2 hchunks
            exact ⟨r, List.mem_cons_of_mem _ hr, hprops⟩
          · rw [if_neg hc3]
            exact ih processed parent hrest hpc hnp hndc.2 hchunks

theorem q09_eq : q09 = 9/10 := by
  show (⟨9, 10, _, _⟩ : ℚ) = 9/10
  rw [Rat.mk'_eq_divInt, Rat.divInt_eq_div]
  norm_num

theorem q05_eq : q05 = 5/10 := by
  show (⟨1, 2, _, _⟩ : ℚ) = 5/10
  rw [Rat.mk'_eq_divInt, Rat.divInt_eq_div]
  norm_num

/-! ### Claim theorems -/

/-- C1, counterexample.  With `S.associations = [t1..t10]` already at the
cap, `connect(S, t11)` leaves the list exactly `[t1..t10]`: the new target
`t11` is dropped and the oldest entry `t1` is still present, so the cap is
not FIFO eviction of the oldest. -/
theorem claim_C1_counterexample :
    (QdrantService.getMemory capRun.storeOf "S").map (fun m => m.associations) =
      some ["t1", "t2", "t3", "t4", "t5", "t6", "t7", "t8", "t9", "t10"] ∧
    (QdrantService.getMemory capRun.storeOf "S").map (fun m => m.associations.contains "t11") =
      some false ∧
    (QdrantService.getMemory capRun.storeOf "S").map (fun m => m.associations.contains "t1") =
      some true := by
  decide

/-- C1, amended.  Connecting a source to a new target appends the target
and truncates to the first 10 entries (`slice(0, 10)`): below the cap the
target is appended; at the cap (10 or more entries) the associations list
is left unchanged up to its first 10 entries, i.e. the new target is
silently dropped and nothing is evicted. -/
theorem claim_C1_amended (env : Env) (s : Store) (sid tid : String) (b : Bool)
    (src tgt : Memory)
    (hs : QdrantService.getMemory s sid = some src)
    (ht : QdrantService.getMemory s tid = some tgt)
    (hne : sid ≠ tid)
    (hnew : tid ∉ src.associations) :
    ∃ s' m', MemoryService.connectMemories env sid tid b s = .ok () s' ∧
      QdrantService.getMemory s' sid = some m' ∧
      m'.associations = (src.associations ++ [tid]).take 10 ∧
      (10 ≤ src.associations.length → m'.associations = src.associations.take 10) := by
  obtain ⟨s', m', hok, hl, hassoc, _, _⟩ := connect_effect env s sid tid b src tgt hs ht hne hnew
  refine ⟨s', m', hok, hl, hassoc, fun hlen => ?_⟩
  rw [hassoc]
  exact List.take_append_of_le_length hlen

/-- C1 witness: the amended theorem applied at the concrete capped store. -/
theorem claim_C1_witness :
    ∃ s' m', MemoryService.connectMemories stubEnv "S" "t11" true capStore = .ok () s' ∧
      QdrantService.getMemory s' "S" = some m' ∧
      m'.associations = ((mkMem "S" "s" 1
        ["t1", "t2", "t3", "t4", "t5", "t6", "t7", "t8", "t9", "t10"]).associations
          ++ ["t11"]).take 10 ∧
      (10 ≤ (mkMem "S" "s" 1
        ["t1", "t2", "t3", "t4", "t5", "t6", "t7", "t8", "t9", "t10"]).associations.length →
        m'.associations = (mkMem "S" "s" 1
          ["t1", "t2", "t3", "t4", "t5", "t6", "t7", "t8", "t9", "t10"]).associations.take 10) := by
  exact claim_C1_amended stubEnv capStore "S" "t11" true
    (mkMem "S" "s" 1 ["t1", "t2", "t3", "t4", "t5", "t6", "t7", "t8", "t9", "t10"])
    (mkMem "t11" "t" 1 [])
    (by decide) (by decide) (by decide) (by decide)

/-- C2, code bug.  The claim says every chunking call terminates; the
`fixed` strategy does not terminate on any non-empty input: after the final
window reaches `text.length`, the loop sets
`startIndex = text.length - overlapSize`, which is again below
`text.length` (the effective overlap is always positive under the
defaults), so the `while` loop repeats the final window forever.  The
model makes the loop fuelled; here, on a plain 44-character sentence with
default fixed options, no amount of fuel completes the loop. -/
theorem claim_C2_code_bug (fuel : Nat) :
    ChunkingService.chunkText stubEnv c2Text { method := .fixed } fuel = none := by
  show ChunkingService.fixedChunkLoop c2Text 500 50 fuel 0 [] = none
  cases fuel with
  | zero => rfl
  | succ n =>
      unfold ChunkingService.fixedChunkLoop
      rw [if_pos (by decide : (0 : Int) < (c2Text.length : Int))]
      simp only [show ChunkingService.fixedEnd c2Text 500 0 = (44 : Int) from by decide]
      exact fixedChunkLoop_fixpoint c2Text 500 50 ((44 : Int) - 50) (by decide) (by decide) n _

/-- C3, counterexample.  A parent with 101 children: the reconstructing
search returns a record for the parent, marked reconstructed, but its
content is not the join of all 101 children sorted by `chunkIndex` — the
child lookup scrolls with `limit: 100`, so one child is missing. -/
theorem claim_C3_counterexample :
    c3Out.map (fun m => m.id) = ["P"] ∧
    c3Out.map (fun m => m.metadata.reconstructed) = [true] ∧
    c3Out.map (fun m => m.content) ≠ [c3Expected] := by
  set_option maxRecDepth 100000 in decide

/-- C3, amended.  For a chunk parent whose child set (the records with
`context.chunkOf = parent.id` in the post-search store) is non-empty and
within the 100-point scroll cap, a reconstructing search with a non-compact
detail level returns for that parent a record whose content is the
children's contents sorted by `chunkIndex` (stably, as the comparator
sort) and joined with a blank line, tagged `metadata.reconstructed = true`;
with more than 100 children only the first 100 scrolled children would be
joined. -/
theorem claim_C3_amended (env : Env) (p : MemorySearchParams) (s : Store)
    (mems : List Memory) (s' : Store) (parent : Memory)
    (hdl : p.detailLevel ≠ some DetailLevel.compact)
    (hsearch : MemoryService.searchMemories env p s = .ok (.full mems) s')
    (hparent : parent ∈ mems)
    (hpc : parent.context.isParentChunk = some true)
    (hnd : (mems.map (fun m => m.id)).Nodup)
    (hne : s'.filter (fun m => m.context.chunkOf = some parent.id) ≠ [])
    (hlen : (s'.filter (fun m => m.context.chunkOf = some parent.id)).length ≤ 100) :
    ∃ out, MemoryService.searchChunkedMemories env p true s = .ok (.full out) s' ∧
      ∃ r ∈ out, r.id = parent.id ∧
        r.content = String.intercalate "\n\n"
          ((MemoryService.sortByChunkIndex
            (s'.filter (fun m => m.context.chunkOf = some parent.id))).map
              (fun c => c.content)) ∧
        r.metadata.reconstructed = true := by
  have hsm : QdrantService.searchByMetadata s' parent.id =
      s'.filter (fun m => m.context.chunkOf = some parent.id) := by
    unfold QdrantService.searchByMetadata
    exact List.take_of_length_le hlen
  have hpos : 0 < (QdrantService.searchByMetadata s' parent.id).length := by
    rw [hsm]
    exact List.length_pos.mpr hne
  unfold MemoryService.searchChunkedMemories
  rw [hsearch]
  simp only [Bool.not_true, Bool.false_or, decide_eq_true_eq]
  rw [if_neg hdl]
  obtain ⟨r, hr, hid, hcontent, hrec⟩ :=
    reconstructLoop_mem s' mems [] parent hparent hpc (by simp) hnd hpos
  rw [hsm] at hcontent
  exact ⟨_, rfl, r, hr, hid, hcontent, hrec⟩

/-- C3 witness: the amended theorem applied at a two-children parent. -/
theorem claim_C3_witness :
    ∃ out, MemoryService.searchChunkedMemories stubEnv c3Params true c3wStore =
        .ok (.full out) c3wPost ∧
      ∃ r ∈ out, r.id = "P" ∧ r.content = "first part\n\nsecond part" ∧
        r.metadata.reconstructed = true := by
  obtain ⟨out, hout, r, hr, hid, hcontent, hrec⟩ :=
    claim_C3_amended stubEnv c3Params c3wStore [c3wParent] c3wPost c3wParent
      (by decide) (by decide) (by decide) (by decide) (by decide) (by decide) (by decide)
  refine ⟨out, hout, r, hr, ?_, ?_, hrec⟩
  · rw [hid]
    decide
  · rw [hcontent]
    decide

/-- C4, confirmed.  With A ("The sky is blue", importance 0.9) and
B ("Clouds are white", importance 0.5) stored,
`consolidate([A, B], keep_most_important, keepOriginals := false)` returns
a record with content exactly "The sky is blue" and importance 0.9, and
afterwards `get` returns null for both originals.  The run also witnesses
that the originals are deleted only after the consolidated record is
created: the linking step (`connect`), which requires both ends to exist,
succeeds before the deletions. -/
theorem claim_C4 :
    c4Run.valOf.map (fun m => m.content) = some "The sky is blue" ∧
    c4Run.valOf.map (fun m => m.importance) = some ((9 : ℚ)/10) ∧
    (MemoryService.getMemory stubEnv "A" c4Run.storeOf).valOf = some none ∧
    (MemoryService.getMemory stubEnv "B" c4Run.storeOf).valOf = some none := by
  refine ⟨by decide, ?_, by decide, by decide⟩
  rw [show ((9 : ℚ)/10) = q09 from q09_eq.symm]
  decide

/-- C5, confirmed.  On the chain A→B→C→D, `findPaths(A, D, maxDepth := 2)`
returns no path and `findPaths(A, D, maxDepth := 3)` returns exactly the
single path `[A, B, C, D]`. -/
theorem claim_C5 :
    (MemoryService.findMemoryPaths stubEnv "A" "D" 2 chainStore).1 = [] ∧
    (MemoryService.findMemoryPaths stubEnv "A" "D" 3 chainStore).1 =
      [["A", "B", "C", "D"]] := by
  decide

/-- C6, counterexample.  The search returns X (primary hit) and Y (appended
through `includeAssociations`): X is bumped but Y keeps `accessCount = 0`
and its old `lastAccessed`, because the association append fetches records
through the raw store adapter and never patches them. -/
theorem claim_C6_counterexample :
    c6Out.map (fun m => m.id) = ["X", "Y"] ∧
    (QdrantService.getMemory c6Run.storeOf "X").map (fun m => m.accessCount) = some 1 ∧
    (QdrantService.getMemory c6Run.storeOf "Y").map (fun m => m.accessCount) = some 0 ∧
    (QdrantService.getMemory c6Run.storeOf "Y").map (fun m => m.lastAccessed) = some 0 := by
  decide

/-- C6, amended.  Every record of the primary result set of a search has
its `lastAccessed` refreshed and its `accessCount` incremented in the
store, records outside the primary set are untouched by the bump, and
`get` bumps the record it returns; records appended via
`includeAssociations` are fetched directly from the store adapter without
the bump (see the counterexample). -/
theorem claim_C6_amended :
    (∀ (env : Env) (p : MemorySearchParams) (s : Store),
      (∀ x ∈ MemoryService.searchPrimary env p s, QdrantService.getMemory s x.id = some x) →
      ((MemoryService.searchPrimary env p s).map (fun m => m.id)).Nodup →
      ∃ out s', MemoryService.searchMemories env p s = .ok out s' ∧
        (∀ x ∈ MemoryService.searchPrimary env p s, QdrantService.getMemory s' x.id =
          some { x with lastAccessed := env.now, accessCount := x.accessCount + 1 }) ∧
        (∀ j, j ∉ (MemoryService.searchPrimary env p s).map (fun m => m.id) →
          QdrantService.getMemory s' j = QdrantService.getMemory s j)) ∧
    (∀ (env : Env) (id : String) (s : Store) (m : Memory),
      QdrantService.getMemory s id = some m →
      MemoryService.getMemory env id s = .ok (some m) (QdrantService.setPayload s id
        { m with lastAccessed := env.now, accessCount := m.accessCount + 1 })) :=
  ⟨searchMemories_spec, fun env id s m h => serviceGet_spec env id s m h⟩

/-- C6 witness: the amended theorem applied at the concrete C6 store. -/
theorem claim_C6_witness :
    ∃ out s', MemoryService.searchMemories stubEnv c6Params c6Store = .ok out s' ∧
      (∀ x ∈ MemoryService.searchPrimary stubEnv c6Params c6Store,
        QdrantService.getMemory s' x.id =
          some { x with lastAccessed := stubEnv.now, accessCount := x.accessCount + 1 }) ∧
      (∀ j, j ∉ (MemoryService.searchPrimary stubEnv c6Params c6Store).map (fun m => m.id) →
        QdrantService.getMemory s' j = QdrantService.getMemory c6Store j) := by
  exact claim_C6_amended.1 stubEnv c6Params c6Store (by decide) (by decide)

/-- C7, code bug.  With A and B stored,
`consolidate(["A", "B", "missing"], merge_content, keepOriginals := false)`
has two resolvable records, yet the call fails with the not-found error of
`connectMemories`: the linking loop iterates the raw input id list instead
of the resolved records.  The consolidated record "C" was already created
and the originals were never deleted when the error was thrown. -/
theorem claim_C7_code_bug :
    c7Run.errOf = some "One or both memories not found" ∧
    (QdrantService.getMemory c7Run.storeOf "A").isSome = true ∧
    (QdrantService.getMemory c7Run.storeOf "B").isSome = true ∧
    (QdrantService.getMemory c7Run.storeOf "C").isSome = true := by
  decide

/-- C9, counterexample.  A single `connect(X, Y, bidirectional := false)`
on fresh records leaves `X.accessCount = 2`, not the single increment the
claim states: the service-level read bumps once and the association patch
bumps again. -/
theorem claim_C9_counterexample :
    (QdrantService.getMemory c9Run.storeOf "X").map (fun m => m.accessCount) = some 2 ∧
    ¬ ((QdrantService.getMemory c9Run.storeOf "X").map (fun m => m.accessCount) = some 1) := by
  decide

/-- C9, amended.  When `connect` writes a new association, the source's
`accessCount` rises by exactly 2 (one bump from the service-level read,
one from the unconditional bump in the shared metadata-patch path), and
likewise for `removeAssociation` when it removes an existing edge; an
update that does not change content increments the record's `accessCount`
by exactly one.  In all three cases `lastAccessed` is refreshed. -/
theorem claim_C9_amended :
    (∀ (env : Env) (s : Store) (sid tid : String) (b : Bool) (src tgt : Memory),
      QdrantService.getMemory s sid = some src →
      QdrantService.getMemory s tid = some tgt →
      sid ≠ tid → tid ∉ src.associations →
      ∃ s' m', MemoryService.connectMemories env sid tid b s = .ok () s' ∧
        QdrantService.getMemory s' sid = some m' ∧
        m'.accessCount = src.accessCount + 2 ∧ m'.lastAccessed = env.now) ∧
    (∀ (env : Env) (s : Store) (sid tid : String) (src : Memory),
      QdrantService.getMemory s sid = some src →
      tid ∈ src.associations →
      ∃ s' m', MemoryService.removeAssociation env sid tid false s = .ok () s' ∧
        QdrantService.getMemory s' sid = some m' ∧
        m'.accessCount = src.accessCount + 2 ∧ m'.lastAccessed = env.now) ∧
    (∀ (env : Env) (id : String) (updates : MemoryPatch) (s : Store) (m : Memory),
      QdrantService.getMemory s id = some m →
      updates.content = none →
      MemoryService.importanceOutOfRange updates.importance = false →
      ∃ s' m', MemoryService.updateMemory env id updates s =
          .ok (some (applyPatch m updates)) s' ∧
        QdrantService.getMemory s' id = some m' ∧
        m'.accessCount = m.accessCount + 1 ∧ m'.lastAccessed = env.now) := by
  refine ⟨?_, ?_, ?_⟩
  · intro env s sid tid b src tgt hs ht hne hnew
    obtain ⟨s', m', hok, hl, _, hac, hla⟩ := connect_effect env s sid tid b src tgt hs ht hne hnew
    exact ⟨s', m', hok, hl, hac, hla⟩
  · intro env s sid tid src hs hmem
    obtain ⟨s', m', hok, hl, _, hac, hla⟩ := removeAssociation_effect env s sid tid src hs hmem
    exact ⟨s', m', hok, hl, hac, hla⟩
  · intro env id updates s m hm hc hq
    obtain ⟨s', m', hok, hl, hac, hla, _⟩ := updateMemory_noContent_effect env id updates s m hm hc hq
    exact ⟨s', m', hok, hl, hac, hla⟩

/-- C9 witness: the amended theorem applied to a concrete connect, a
concrete removeAssociation and a concrete content-less update. -/
theorem claim_C9_witness :
    (∃ s' m', MemoryService.connectMemories stubEnv "X" "Y" false c9Store = .ok () s' ∧
      QdrantService.getMemory s' "X" = some m' ∧
      m'.accessCount = (mkMem "X" "x" 1 []).accessCount + 2 ∧ m'.lastAccessed = stubEnv.now) ∧
    (∃ s' m', MemoryService.removeAssociation stubEnv "S" "t1" false capStore = .ok () s' ∧
      QdrantService.getMemory s' "S" = some m' ∧
      m'.accessCount = (mkMem "S" "s" 1
        ["t1", "t2", "t3", "t4", "t5", "t6", "t7", "t8", "t9", "t10"]).accessCount + 2 ∧
      m'.lastAccessed = stubEnv.now) ∧
    (∃ s' m', MemoryService.updateMemory stubEnv "A" { importance := some q05 } c4Store =
        .ok (some (applyPatch (mkMem "A" "The sky is blue" q09 [])
          { importance := some q05 })) s' ∧
      QdrantService.getMemory s' "A" = some m' ∧
      m'.accessCount = (mkMem "A" "The sky is blue" q09 []).accessCount + 1 ∧
      m'.lastAccessed = stubEnv.now) := by
  refine ⟨?_, ?_, ?_⟩
  · exact claim_C9_amended.1 stubEnv c9Store "X" "Y" false (mkMem "X" "x" 1 [])
      (mkMem "Y" "y" 1 []) (by decide) (by decide) (by decide) (by decide)
  · exact claim_C9_amended.2.1 stubEnv capStore "S" "t1"
      (mkMem "S" "s" 1 ["t1", "t2", "t3", "t4", "t5", "t6", "t7", "t8", "t9", "t10"])
      (by decide) (by decide)
  · exact claim_C9_amended.2.2 stubEnv "A" { importance := some q05 } c4Store
      (mkMem "A" "The sky is blue" q09 []) (by decide) (by decide) (by decide)

/-- C8, confirmed.  Creation and update validate before any store call:
empty-after-trim content and out-of-range importance raise the validation
error with the store unchanged (the error carries the same store `s`), a
successful create stores an importance in `[0, 1]` (validated when given,
heuristic value otherwise), and a successful update of a record whose
importance is in `[0, 1]` keeps it in `[0, 1]`. -/
theorem claim_C8 :
    (∀ (env : Env) (newId content : String) (ty : MemoryType) (ctx : Option MemoryContext)
        (imp : Option ℚ) (s : Store), jsTrim content = "" →
        MemoryService.createMemory env newId content ty ctx imp s =
          .err "Memory content cannot be empty" s) ∧
    (∀ (env : Env) (newId content : String) (ty : MemoryType) (ctx : Option MemoryContext)
        (q : ℚ) (s : Store), jsTrim content ≠ "" → (q < 0 ∨ 1 < q) →
        MemoryService.createMemory env newId content ty ctx (some q) s =
          .err "Importance must be between 0 and 1" s) ∧
    (∀ (env : Env) (newId content : String) (ty : MemoryType) (ctx : Option MemoryContext)
        (imp : Option ℚ) (s : Store) (m : Memory) (s' : Store),
        MemoryService.createMemory env newId content ty ctx imp s = .ok m s' →
        0 ≤ m.importance ∧ m.importance ≤ 1) ∧
    (∀ (env : Env) (id : String) (updates : MemoryPatch) (s : Store) (m : Memory) (c : String),
        QdrantService.getMemory s id = some m → updates.content = some c → jsTrim c = "" →
        MemoryService.updateMemory env id updates s = .err "Memory content cannot be empty" s) ∧
    (∀ (env : Env) (id : String) (updates : MemoryPatch) (s : Store) (m : Memory) (q : ℚ),
        QdrantService.getMemory s id = some m →
        (∀ c, updates.content = some c → jsTrim c ≠ "") →
        updates.importance = some q → (q < 0 ∨ 1 < q) →
        MemoryService.updateMemory env id updates s =
          .err "Importance must be between 0 and 1" s) ∧
    (∀ (env : Env) (id : String) (updates : MemoryPatch) (s : Store) (m r : Memory) (s' : Store),
        QdrantService.getMemory s id = some m → 0 ≤ m.importance → m.importance ≤ 1 →
        MemoryService.updateMemory env id updates s = .ok (some r) s' →
        0 ≤ r.importance ∧ r.importance ≤ 1) := by
  have hoor : ∀ q : ℚ, (q < 0 ∨ 1 < q) →
      MemoryService.importanceOutOfRange (some q) = true := by
    intro q hq
    rcases hq with h | h <;> simp [MemoryService.importanceOutOfRange, h]
  have hoor2 : ∀ (o : Option ℚ), MemoryService.importanceOutOfRange o = false →
      ∀ q, o = some q → 0 ≤ q ∧ q ≤ 1 := by
    intro o ho q hq
    subst hq
    simp only [MemoryService.importanceOutOfRange, Bool.or_eq_false_iff,
      decide_eq_false_iff_not, not_lt] at ho
    exact ⟨ho.1, ho.2⟩
  refine ⟨?_, ?_, ?_, ?_, ?_, ?_⟩
  · intro env newId content ty ctx imp s h
    unfold MemoryService.createMemory
    rw [if_pos h]
  · intro env newId content ty ctx q s h1 h2
    unfold MemoryService.createMemory
    rw [if_neg h1, if_pos (hoor q h2)]
  · intro env newId content ty ctx imp s m s' h
    obtain ⟨himp, hval⟩ := createMemory_importance env newId content ty ctx imp s m s' h
    rw [himp]
    cases imp with
    | none => exact calculateImportance_bounds content ty
    | some q =>
        have := hoor2 (some q) hval q rfl
        simpa using this
  · intro env id updates s m c hm hc htrim
    unfold MemoryService.updateMemory
    simp only [hm, hc]
    rw [if_pos htrim]
  · intro env id updates s m q hm hcfun himp hq
    unfold MemoryService.updateMemory
    simp only [hm]
    cases hc : updates.content with
    | none =>
        simp only []
        rw [himp, if_pos (hoor q hq)]
    | some c =>
        simp only []
        rw [if_neg (hcfun c hc), himp, if_pos (hoor q hq)]
  · intro env id updates s m r s' hm h0 h1 h
    unfold MemoryService.updateMemory at h
    simp only [hm] at h
    have hkey : MemoryService.importanceOutOfRange updates.importance = false ∧
        r.importance = updates.importance.getD m.importance := by
      cases hc : updates.content with
      | some c =>
          simp only [hc] at h
          split at h
          · cases h
          · split at h
            · cases h
            · rename_i hval
              cases h
              exact ⟨by simpa using hval, rfl⟩
      | none =>
          simp only [hc] at h
          split at h
          · cases h
          · rename_i hval
            split at h
            · cases h
            · cases h
              exact ⟨by simpa using hval, rfl⟩
    obtain ⟨hval, hr⟩ := hkey
    rw [hr]
    cases hq : updates.importance with
    | none => exact ⟨h0, h1⟩
    | some q =>
        have := hoor2 _ hval q hq
        simpa using this

/-- C8 witness: every part of the theorem applied at a concrete input. -/
theorem claim_C8_witness :
    MemoryService.createMemory stubEnv "W" " " .semantic none none [] =
      .err "Memory content cannot be empty" [] ∧
    MemoryService.createMemory stubEnv "W" "hello" .semantic none (some 2) [] =
      .err "Importance must be between 0 and 1" [] ∧
    (∃ m s', MemoryService.createMemory stubEnv "W" "hello" .semantic none (some 1) [] =
      .ok m s' ∧ 0 ≤ m.importance ∧ m.importance ≤ 1) ∧
    MemoryService.updateMemory stubEnv "A" { content := some " " } c4Store =
      .err "Memory content cannot be empty" c4Store ∧
    MemoryService.updateMemory stubEnv "A" { importance := some 2 } c4Store =
      .err "Importance must be between 0 and 1" c4Store ∧
    (∃ r s', MemoryService.updateMemory stubEnv "A" { importance := some 1 } c4Store =
      .ok (some r) s' ∧ 0 ≤ r.importance ∧ r.importance ≤ 1) := by
  refine ⟨?_, ?_, ?_, ?_, ?_, ?_⟩
  · exact claim_C8.1 stubEnv "W" " " .semantic none none [] (by decide)
  · exact claim_C8.2.1 stubEnv "W" "hello" .semantic none 2 [] (by decide)
      (Or.inr (by norm_num))
  · cases hc : MemoryService.createMemory stubEnv "W" "hello" .semantic none (some 1) [] with
    | ok m s' =>
        exact ⟨m, s', rfl,
          claim_C8.2.2.1 stubEnv "W" "hello" .semantic none (some 1) [] m s' hc⟩
    | err e s' =>
        exfalso
        have hne : (MemoryService.createMemory stubEnv "W" "hello" .semantic none
            (some 1) []).errOf = none := by decide
        rw [hc] at hne
        simp [Res.errOf] at hne
  · exact claim_C8.2.2.2.1 stubEnv "A" { content := some " " } c4Store
      (mkMem "A" "The sky is blue" q09 []) " " (by decide) rfl (by decide)
  · exact claim_C8.2.2.2.2.1 stubEnv "A" { importance := some 2 } c4Store
      (mkMem "A" "The sky is blue" q09 []) 2 (by decide) (fun c hc => by cases hc) rfl
      (Or.inr (by norm_num))
  · cases hc : MemoryService.updateMemory stubEnv "A" { importance := some 1 } c4Store with
    | ok res s' =>
        cases res with
        | some r =>
            exact ⟨r, s', rfl, claim_C8.2.2.2.2.2 stubEnv "A" { importance := some 1 }
              c4Store (mkMem "A" "The sky is blue" q09 []) r s' (by decide)
              (by decide) (by decide) hc⟩
        | none =>
            exfalso
            have hne : (MemoryService.updateMemory stubEnv "A" { importance := some 1 }
                c4Store).valOf = some (some (applyPatch (mkMem "A" "The sky is blue" q09 [])
                  { importance := some 1 })) := by decide
            rw [hc] at hne
            simp [Res.valOf] at hne
    | err e s' =>
        exfalso
        have hne : (MemoryService.updateMemory stubEnv "A" { importance := some 1 }
            c4Store).errOf = none := by decide
        rw [hc] at hne
        simp [Res.errOf] at hne

/-- C10, confirmed.  Whatever the strategy, the id list and the input
records, a successful consolidation creates its record with
`MemoryType.SEMANTIC`: the `createMemory` call hardcodes the type. -/
theorem claim_C10 (env : Env) (memoryIds : List String) (strategy : ConsolidationStrategy)
    (keepOriginals : Bool) (newId : String) (s : Store) (m : Memory) (s' : Store)
    (h : MemoryService.consolidateMemories env memoryIds strategy keepOriginals newId s =
      .ok m s') :
    m.type = MemoryType.semantic := by
  simp only [MemoryService.consolidateMemories] at h
  split at h
  · cases h
  · split at h
    · cases h
    · split at h
      · cases h
      · rename_i consolidated s2 hcreate
        split at h
        · cases h
        · cases h
          exact createMemory_type _ _ _ _ _ _ _ _ _ hcreate

/-- C10 witness: the theorem applied at a concrete consolidation of two
episodic records. -/
theorem claim_C10_witness : ∃ m s', c10Run = .ok m s' ∧ m.type = MemoryType.semantic := by
  cases hc : c10Run with
  | ok m s' =>
      exact ⟨m, s', rfl, claim_C10 stubEnv ["A", "B"] .create_composite true "C" c10Store
        m s' hc⟩
  | err e s' =>
      exfalso
      have hne : c10Run.errOf = none := by decide
      rw [hc] at hne
      simp [Res.errOf] at hne
